import Mathlib

set_option maxHeartbeats 1000000

/-!
Verification of the minesweeper engine and CSP solver
(`minesweeper/minesweeper.py`).  The Python classes are embedded shallowly:
the board grids become functions `Int × Int → _`, the raised `ValueError`s
become `Except` results, and the two unbounded loops (the flood-fill
`while len(stack) > 0` of `Game._update` and the `while True` fixpoint loop
of `CSPAI.find_safe_and_mine`) are written with explicit fuel; sufficiency
of the fuel is proved below, so on every input the claims speak about the
fuelled functions compute exactly what the Python loops compute.
-/

/-- Board coordinates: the Python `(x, y)` pairs of ints. -/
abbrev Coord : Type := Int × Int

/-- The eight neighbor offsets: `itertools.product([-1, 0, 1], repeat=2)`
minus `(0, 0)`, in the iteration order of the Python loops. -/
def offsets : List (Int × Int) :=
  [(-1, -1), (-1, 0), (-1, 1), (0, -1), (0, 1), (1, -1), (1, 0), (1, 1)]

/-- The list of the eight neighbor positions of a cell (`x + dx, y + dy`). -/
def neighborsOf (c : Coord) : List Coord :=
  offsets.map (fun d => (c.1 + d.1, c.2 + d.2))

/-- Predicate `0 <= x < width` and `0 <= y < height`
(negation of `Game._is_outside_board`). -/
def inBoard (w h : Nat) (c : Coord) : Bool :=
  decide (0 ≤ c.1 ∧ c.1 < (w : Int) ∧ 0 ≤ c.2 ∧ c.2 < (h : Int))

/-- The set of all board cells of a `width × height` board. -/
def gridCells (w h : Nat) : Finset Coord :=
  Finset.Icc (0 : Int) ((w : Int) - 1) ×ˢ Finset.Icc (0 : Int) ((h : Int) - 1)

/-- 8-adjacency of two distinct cells (Chebyshev distance one). -/
def adjacent (c n : Coord) : Prop :=
  c ≠ n ∧ (c.1 - n.1).natAbs ≤ 1 ∧ (c.2 - n.2).natAbs ≤ 1

instance (c n : Coord) : Decidable (adjacent c n) := by
  unfold adjacent
  infer_instance

/-- Python `GameConfig`. -/
structure GameConfig where
  width : Nat
  height : Nat
  num_mines : Nat

/-- Python `GameStatus` enum. -/
inductive GameStatus where
  | PLAYING
  | VICTORY
  | DEFEAT
  | QUIT
deriving DecidableEq, Repr

/-- Python `Square`: an exposed-square record `(x, y, num_mines)`. -/
structure Square where
  x : Int
  y : Int
  num_mines : Nat
deriving DecidableEq, Repr

/-- Python `GameResult`. -/
structure GameResult where
  victory : Bool
  num_moves : Nat
deriving DecidableEq, Repr

/-- Python `MoveResult`: the constructor applies `set(...)` to the square
list, so the field is a `Finset`. -/
structure MoveResult where
  status : GameStatus
  new_squares : Finset Square
deriving DecidableEq

/-- Python `Game`: the mutable attributes of the engine.  The 2d lists
`mines`, `exposed` and `counts` become functions on coordinates. -/
structure Game where
  width : Nat
  height : Nat
  num_mines : Nat
  num_moves : Nat
  numExposedSquares : Nat
  explosion : Bool
  quitFlag : Bool
  mines : Coord → Bool
  exposed : Coord → Bool
  counts : Coord → Nat

/-- Python `Game._is_outside_board`. -/
def Game.is_outside_board (g : Game) (c : Coord) : Bool :=
  decide (c.1 < 0) || decide ((g.width : Int) ≤ c.1) ||
    decide (c.2 < 0) || decide ((g.height : Int) ≤ c.2)

/-- Python `Game._init_counts`: the count of a cell is the number of its in-board
neighbors (over the eight offsets) that carry a mine. -/
def countsFrom (w h : Nat) (mines : Coord → Bool) : Coord → Nat := fun c =>
  ((neighborsOf c).filter (fun n => inBoard w h n && mines n)).length

/-- Python `Game.__init__` with a supplied `mines` layout (followed by
`_init_counts`). -/
def Game.init (cfg : GameConfig) (mines : Coord → Bool) : Game :=
  { width := cfg.width
    height := cfg.height
    num_mines := cfg.num_mines
    num_moves := 0
    numExposedSquares := 0
    explosion := false
    quitFlag := false
    mines := mines
    exposed := fun _ => false
    counts := countsFrom cfg.width cfg.height mines }

/-- Python `Game._place_mines`: the sampling loop terminates with a set
`locations` of distinct board coordinates of the required size, and the
mine grid is `True` exactly on that set.  The set is taken as a parameter
(it is the only data the random loop produces). -/
def placeMines (locs : Finset Coord) : Coord → Bool := fun c => decide (c ∈ locs)

/-- Python `Game._num_safe_squares = width * height - num_mines`. -/
def Game.num_safe_squares (g : Game) : Nat := g.width * g.height - g.num_mines

/-- Python `Game.game_over`. -/
def Game.game_over (g : Game) : Bool :=
  g.explosion || g.quitFlag || decide (g.numExposedSquares = g.num_safe_squares)

/-- Python `Game.status`. -/
def Game.status (g : Game) : GameStatus :=
  if !g.game_over then .PLAYING
  else if g.quitFlag then .QUIT
  else if g.explosion then .DEFEAT
  else .VICTORY

/-- Python `Game.result`: raises `ValueError` when the game is not over. -/
def Game.result (g : Game) : Except Unit GameResult :=
  if !g.game_over then .error ()
  else .ok { victory := decide (g.status = .VICTORY), num_moves := g.num_moves }

/-- Python `Game.quit`. -/
def Game.quit (g : Game) : Game := { g with quitFlag := true }

/-- Python `Game._expose_square`. -/
def Game.expose_square (g : Game) (c : Coord) : Game :=
  { g with
    exposed := fun n => if n = c then true else g.exposed n
    numExposedSquares := g.numExposedSquares + 1 }

/-- Python `Game._test_if_count_0`. -/
def Game.test_if_count_0 (g : Game) (c : Coord) : Bool := decide (g.counts c = 0)

/-- State of the flood-fill loop of `Game._update`: the game, the work
stack and the accumulated square list. -/
structure FloodState where
  g : Game
  stack : List Coord
  squares : List Square

/-- Body of the inner neighbor loop of `Game._update` for one neighbor
position: if in board and not yet exposed, expose it, append its record,
and push it when its count is zero. -/
def floodVisit (st : FloodState) (n : Coord) : FloodState :=
  if !st.g.is_outside_board n && !st.g.exposed n then
    { g := st.g.expose_square n
      stack := if st.g.test_if_count_0 n then n :: st.stack else st.stack
      squares := st.squares ++ [{ x := n.1, y := n.2, num_mines := st.g.counts n }] }
  else st

/-- One iteration of the flood loop after popping `c`: visit the eight
neighbors in offset order.  (The Lean stack pushes on the head and pops the
head; the Python list appends at the end and pops from the end, the same
LIFO discipline.) -/
def floodCell (st : FloodState) (c : Coord) : FloodState :=
  (neighborsOf c).foldl floodVisit st

/-- The `while len(stack) > 0` loop of `Game._update`, with explicit fuel.
`Game.update` supplies fuel that is proved sufficient below, so the `0`
case is never reached from `Game.update`. -/
def floodLoop : Nat → FloodState → Game × List Square
  | 0, st => (st.g, st.squares)
  | fuel + 1, st =>
    match st.stack with
    | [] => (st.g, st.squares)
    | c :: rest => floodLoop fuel (floodCell { st with stack := rest } c)

/-- Python `Game._update`: expose the selected cell; on a mine set the explosion
flag and stop; on a nonzero count stop; otherwise flood fill. -/
def Game.update (g : Game) (c : Coord) : Game × List Square :=
  let g1 := g.expose_square c
  let squares : List Square := [{ x := c.1, y := c.2, num_mines := g1.counts c }]
  if g1.mines c then ({ g1 with explosion := true }, squares)
  else if g1.counts c ≠ 0 then (g1, squares)
  else floodLoop (9 * g1.width * g1.height + 1) { g := g1, stack := [c], squares := squares }

/-- The three `ValueError`s of `Game.select`, in check order. -/
inductive SelectErr where
  | outsideBoard
  | alreadyOver
  | alreadyExposed
deriving DecidableEq, Repr

/-- Python `Game.select`: the three precondition checks (in source order), then
the move-counter increment, `_update`, and the `MoveResult` built from the
post-move status and the set of exposed squares. -/
def Game.select (g : Game) (c : Coord) : Except SelectErr (MoveResult × Game) :=
  if g.is_outside_board c then .error .outsideBoard
  else if g.explosion then .error .alreadyOver
  else if g.exposed c then .error .alreadyExposed
  else
    let g1 : Game := { g with num_moves := g.num_moves + 1 }
    let r := g1.update c
    .ok ({ status := r.1.status, new_squares := r.2.toFinset }, r.1)

/-- External operations on a game: a `select` call or a `quit` call. -/
inductive Op where
  | selectOp (c : Coord)
  | quitOp

/-- Apply one operation; a `select` that raises leaves the game unchanged
(the checks in the source precede every mutation). -/
def Game.applyOp (g : Game) : Op → Game
  | .selectOp c =>
    match g.select c with
    | .ok pr => pr.2
    | .error _ => g
  | .quitOp => g.quit

/-- Run a list of operations in order. -/
def Game.run (g : Game) : List Op → Game
  | [] => g
  | op :: ops => (g.applyOp op).run ops

/-- Did `select c` succeed (not raise) on `g`? -/
def Game.selectOk (g : Game) (c : Coord) : Bool :=
  match g.select c with
  | .ok _ => true
  | .error _ => false

/-- Number of successful `select` calls in a run. -/
def Game.successCount : Game → List Op → Nat
  | _, [] => 0
  | g, Op.selectOp c :: ops =>
    (if g.selectOk c then 1 else 0) + (g.applyOp (Op.selectOp c)).successCount ops
  | g, Op.quitOp :: ops => (g.applyOp Op.quitOp).successCount ops

/-- Game states reachable from `g0` by `select` and `quit` calls. -/
inductive Reachable (g0 : Game) : Game → Prop where
  | refl : Reachable g0 g0
  | step : ∀ {g : Game} (op : Op), Reachable g0 g → Reachable g0 (g.applyOp op)

/-- The set of exposed board cells of a game. -/
def Game.exposedSet (g : Game) : Finset Coord :=
  (gridCells g.width g.height).filter (fun c => g.exposed c = true)

/-- Number of board cells carrying a mine. -/
def boardMineCount (w h : Nat) (mines : Coord → Bool) : Nat :=
  ((gridCells w h).filter (fun c => mines c = true)).card

/-- Specification-side neighbor-mine count: the number of mine cells among
the in-board 8-neighbors of `c`. -/
def trueNeighborMineCount (w h : Nat) (mines : Coord → Bool) (c : Coord) : Nat :=
  ((gridCells w h).filter (fun n => adjacent c n ∧ mines n = true)).card

/-- Python `Game.state`: the player-visible board; `none` for unexposed cells,
the neighbor count for exposed ones. -/
def Game.state (g : Game) : Coord → Option Int := fun c =>
  if inBoard g.width g.height c && g.exposed c then some (g.counts c : Int) else none

/-- Python `CSPAI.calc_equations`: for every tracked exposed cell, the set of its
in-board neighbors that are unexposed (`None`) in the visible state; empty
for untracked cells. -/
def calc_equations (w h : Nat) (exposedSquares : Finset Coord) (vals : Coord → Option Int) :
    Coord → Finset Coord := fun c =>
  if c ∈ exposedSquares then
    ((neighborsOf c).filter (fun n => inBoard w h n && (vals n).isNone)).toFinset
  else ∅

/-- Python truthiness of an `eq_values` entry: `None` and `0` are falsy. -/
def truthy : Option Int → Bool
  | none => false
  | some v => decide (v ≠ 0)

/-- The scan loop of `CSPAI.find_mine`: every coordinate of an equation
whose truthy value equals the size of its set is a newly found mine. -/
def newMinesOf (w h : Nat) (eqs : Coord → Finset Coord) (vals : Coord → Option Int) :
    Finset Coord :=
  (gridCells w h).biUnion (fun c =>
    if truthy (vals c) && decide (vals c = some ((eqs c).card : Int)) then eqs c else ∅)

/-- Python `CSPAI.find_mine`: collect the newly found mines; then (net effect of
the removal loop) remove them from every equation and decrement each
the value of each equation once per element removed from it; return the new mines
united with the accumulated ones.  (The Python removal loop would fail on a
`None` value with a nonempty equation; such a pair never arises from
`calc_equations`, and the embedding keeps `None` unchanged there.) -/
def find_mine (w h : Nat) (eqs : Coord → Finset Coord) (vals : Coord → Option Int)
    (prevMines : Finset Coord) :
    (Coord → Finset Coord) × (Coord → Option Int) × Finset Coord :=
  (fun c => eqs c \ newMinesOf w h eqs vals,
   fun c =>
     match vals c with
     | some v => some (v - ((eqs c ∩ newMinesOf w h eqs vals).card : Int))
     | none => none,
   newMinesOf w h eqs vals ∪ prevMines)

/-- The scan loop of `CSPAI.find_safe`: every coordinate of an equation
whose value is exactly `0` is newly known safe. -/
def newSafeOf (w h : Nat) (eqs : Coord → Finset Coord) (vals : Coord → Option Int) :
    Finset Coord :=
  (gridCells w h).biUnion (fun c => if vals c = some 0 then eqs c else ∅)

/-- Python `CSPAI.find_safe`: collect the newly known safe cells; remove them
from every equation (values unchanged); return them united with the
accumulated ones. -/
def find_safe (w h : Nat) (eqs : Coord → Finset Coord) (vals : Coord → Option Int)
    (prevSafe : Finset Coord) :
    (Coord → Finset Coord) × (Coord → Option Int) × Finset Coord :=
  (fun c => eqs c \ newSafeOf w h eqs vals, vals, newSafeOf w h eqs vals ∪ prevSafe)

/-- The `while True` loop of `CSPAI.find_safe_and_mine` with explicit fuel:
one pass runs `find_mine` then `find_safe` and stops when neither
accumulated set changed.  The `Bool` records whether the no-change pass was
reached within the fuel. -/
def fsmLoop (w h : Nat) :
    Nat → (Coord → Finset Coord) → (Coord → Option Int) → Finset Coord → Finset Coord →
    Finset Coord × Finset Coord × Bool
  | 0, _, _, mines_, safe_ => (mines_, safe_, false)
  | fuel + 1, eqs, vals, mines_, safe_ =>
    let rm := find_mine w h eqs vals mines_
    let rs := find_safe w h rm.1 rm.2.1 safe_
    if rm.2.2 = mines_ ∧ rs.2.2 = safe_ then (rm.2.2, rs.2.2, true)
    else fsmLoop w h fuel rs.1 rs.2.1 rm.2.2 rs.2.2

/-- Python `CSPAI.find_safe_and_mine` (the `deepcopy` is the identity on the pure
embedding).  `w * h + 1` passes are proved sufficient below for every
equation system over board cells. -/
def find_safe_and_mine (w h : Nat) (eqs : Coord → Finset Coord) (vals : Coord → Option Int) :
    Finset Coord × Finset Coord :=
  let r := fsmLoop w h (w * h + 1) eqs vals ∅ ∅
  (r.1, r.2.1)

/-! ### Flood-fill invariants -/

/-- Coordinates of a list of square records. -/
def coordsOf (sqs : List Square) : List Coord := sqs.map (fun s => (s.x, s.y))

/-- Number of unexposed board cells. -/
def unexposedCount (g : Game) : Nat :=
  ((gridCells g.width g.height).filter (fun c => g.exposed c = false)).card

/-- One 8-adjacency step that stays inside the coordinate list `S`. -/
def adjStep (S : List Coord) (a b : Coord) : Prop := b ∈ S ∧ adjacent a b

/-- Relation: `b` is reachable from `a` through 8-adjacent cells of `S`. -/
def ConnIn (S : List Coord) (a b : Coord) : Prop := Relation.ReflTransGen (adjStep S) a b

/-- Invariant of the flood-fill loop of `Game._update`, relative to the
game `g0` as it was at the start of `_update` and the selected cell `c0`.
`pending` lists cells popped from the stack whose neighbor loop is still
running (`[c]` inside one `floodCell`, `[]` at the loop head). -/
structure FloodInvP (g0 : Game) (c0 : Coord) (pending : List Coord) (st : FloodState) : Prop where
  wEq : st.g.width = g0.width
  hEq : st.g.height = g0.height
  mEq : st.g.mines = g0.mines
  cEq : st.g.counts = g0.counts
  nmEq : st.g.num_mines = g0.num_mines
  mvEq : st.g.num_moves = g0.num_moves
  exEq : st.g.explosion = g0.explosion
  qEq : st.g.quitFlag = g0.quitFlag
  expIff : ∀ n : Coord, st.g.exposed n = true ↔ (g0.exposed n = true ∨ n ∈ coordsOf st.squares)
  sqNodup : (coordsOf st.squares).Nodup
  sqNew : ∀ s ∈ st.squares, g0.exposed (s.x, s.y) = false
  sqIn : ∀ s ∈ st.squares, inBoard g0.width g0.height (s.x, s.y) = true
  sqCnt : ∀ s ∈ st.squares, s.num_mines = g0.counts (s.x, s.y)
  numEq : st.g.numExposedSquares = g0.numExposedSquares + st.squares.length
  stackSq : ∀ c ∈ st.stack, c ∈ coordsOf st.squares
  stackZero : ∀ c ∈ st.stack, g0.counts c = 0
  conn : ∀ p ∈ coordsOf st.squares, ConnIn (coordsOf st.squares) c0 p
  closure : ∀ s ∈ st.squares, g0.counts (s.x, s.y) = 0 →
    (s.x, s.y) ∈ st.stack ∨ (s.x, s.y) ∈ pending ∨
      ∀ n : Coord, adjacent (s.x, s.y) n → inBoard g0.width g0.height n = true →
        st.g.exposed n = true
  sqSafe : (∀ a b : Coord, g0.counts a = 0 → adjacent a b →
      inBoard g0.width g0.height b = true → g0.mines b = false) →
    g0.mines c0 = false → ∀ s ∈ st.squares, g0.mines (s.x, s.y) = false
  origin : c0 ∈ coordsOf st.squares

/-- Everything the claims need about one `Game._update` call: frame
conditions, how the explosion flag moves, that the returned square list is
exactly the set of newly exposed cells (without repetition, all previously
unexposed, in board, carrying their precomputed counts), the exposure
counter arithmetic, connectivity of the revealed region, its closure at
zero-count cells, that no revealed cell is a mine (on a consistent board),
and the single-record mine case. -/
structure UpdateFacts (g0 : Game) (c0 : Coord) (g1 : Game) (sqs : List Square) : Prop where
  wEq : g1.width = g0.width
  hEq : g1.height = g0.height
  mEq : g1.mines = g0.mines
  cEq : g1.counts = g0.counts
  nmEq : g1.num_mines = g0.num_mines
  mvEq : g1.num_moves = g0.num_moves
  qEq : g1.quitFlag = g0.quitFlag
  exEq : g1.explosion = (g0.explosion || g0.mines c0)
  expIff : ∀ n : Coord, g1.exposed n = true ↔ (g0.exposed n = true ∨ n ∈ coordsOf sqs)
  sqNodup : (coordsOf sqs).Nodup
  sqNew : ∀ s ∈ sqs, g0.exposed (s.x, s.y) = false
  sqIn : ∀ s ∈ sqs, inBoard g0.width g0.height (s.x, s.y) = true
  sqCnt : ∀ s ∈ sqs, s.num_mines = g0.counts (s.x, s.y)
  numEq : g1.numExposedSquares = g0.numExposedSquares + sqs.length
  origin : c0 ∈ coordsOf sqs
  conn : ∀ p ∈ coordsOf sqs, ConnIn (coordsOf sqs) c0 p
  closure : g0.mines c0 = false → g0.counts c0 = 0 →
    ∀ s ∈ sqs, g0.counts (s.x, s.y) = 0 →
      ∀ n : Coord, adjacent (s.x, s.y) n → inBoard g0.width g0.height n = true →
        g1.exposed n = true
  sqSafe : (∀ a b : Coord, g0.counts a = 0 → adjacent a b →
      inBoard g0.width g0.height b = true → g0.mines b = false) →
    g0.mines c0 = false → ∀ s ∈ sqs, g0.mines (s.x, s.y) = false
  mineCase : g0.mines c0 = true → sqs = [{ x := c0.1, y := c0.2, num_mines := g0.counts c0 }]

/-! ### Facts about `Game.select` and the global game invariant -/

/-- The `self.num_moves += 1` step of `Game.select`. -/
def Game.bump (g : Game) : Game := { g with num_moves := g.num_moves + 1 }

/-- Invariant of every reachable game state: the counts are the true
neighbor-mine counts, the exposure counter counts the exposed cells,
exposure stays on the board, no cell is exposed while the explosion flag is
down except non-mines, and the flag is up only after a mine was exposed. -/
structure GameInv (g : Game) : Prop where
  countsOK : ∀ c : Coord, g.counts c = trueNeighborMineCount g.width g.height g.mines c
  numOK : g.numExposedSquares = g.exposedSet.card
  expIn : ∀ c : Coord, g.exposed c = true → inBoard g.width g.height c = true
  mineSafe : g.explosion = false → ∀ c : Coord, g.exposed c = true → g.mines c = false
  explosionWitness : g.explosion = true →
    ∃ c : Coord, g.exposed c = true ∧ g.mines c = true

/-! ### Concrete boards used by the claims -/

/-- 3x3 board with the single mine at `(2, 2)` (the board of the concrete scenario of the spec). -/
def mines3x3 : Coord → Bool := fun c => decide (c = ((2 : Int), (2 : Int)))

def game3x3 : Game := Game.init { width := 3, height := 3, num_mines := 1 } mines3x3

def game3x3r : Game := game3x3.applyOp (Op.selectOp (0, 0))

/-- 2x1 board with the mine at `(1, 0)`. -/
def mines2x1 : Coord → Bool := fun c => decide (c = ((1 : Int), (0 : Int)))

def game2x1 : Game := Game.init { width := 2, height := 1, num_mines := 1 } mines2x1

def game2x1q : Game := game2x1.quit

def game2x1qs : Game := game2x1q.applyOp (Op.selectOp (0, 0))

instance exceptDecidableEq {ε α : Type} [DecidableEq ε] [DecidableEq α] :
    DecidableEq (Except ε α) := fun a b =>
  match a, b with
  | Except.ok x, Except.ok y =>
    if h : x = y then Decidable.isTrue (by rw [h])
    else Decidable.isFalse (fun hc => h (by injection hc))
  | Except.ok _, Except.error _ => Decidable.isFalse (fun hc => Except.noConfusion hc)
  | Except.error _, Except.ok _ => Decidable.isFalse (fun hc => Except.noConfusion hc)
  | Except.error e, Except.error f =>
    if h : e = f then Decidable.isTrue (by rw [h])
    else Decidable.isFalse (fun hc => h (by injection hc))

/-! ### C9: termination of the solver fixpoint loop -/

/-- Union of all equation sets over the board cells. -/
def unionEqs (w h : Nat) (eqs : Coord → Finset Coord) : Finset Coord :=
  (gridCells w h).biUnion eqs

/-- Termination invariant of the fixpoint loop: the equation sets only
shrink from the initial ones, the cells still mentioned in equations are
exactly the not-yet-classified ones (once a coordinate enters the mine or
safe set it is removed from every equation and can never be collected
again), and the accumulated sets stay inside the union of the original
equation sets. -/
structure FsmTermInv (w h : Nat) (eqs0 eqs : Coord → Finset Coord)
    (mines_ safe_ : Finset Coord) : Prop where
  sub : ∀ c ∈ gridCells w h, eqs c ⊆ eqs0 c
  disj : ∀ c ∈ gridCells w h, Disjoint (eqs c) (mines_ ∪ safe_)
  acc : mines_ ∪ safe_ ⊆ unionEqs w h eqs0

/-- C9 counterexample input: a 1x1 board whose single equation says the
single cell is a mine.  The loop needs a second pass to observe the
fixpoint, so it does not reach a no-change pass within
`width*height = 1` passes. -/
def eqs1x1 : Coord → Finset Coord := fun c =>
  if c = ((0 : Int), (0 : Int)) then {((0 : Int), (0 : Int))} else ∅

def vals1x1 : Coord → Option Int := fun c =>
  if c = ((0 : Int), (0 : Int)) then some 1 else none

/-! ### C1: solver soundness -/

/-- Number of true mines among a set of coordinates. -/
def mineCountIn (M : Coord → Bool) (s : Finset Coord) : Nat :=
  (s.filter (fun c => M c = true)).card

/-- Soundness invariant of the solver state relative to the ground-truth
layout `M`: whenever an equation carries a numeric value, that value is
exactly the number of true mines among the coordinates of its set. -/
def SolvInv (w h : Nat) (M : Coord → Bool) (eqs : Coord → Finset Coord)
    (vals : Coord → Option Int) : Prop :=
  ∀ c ∈ gridCells w h, ∀ v : Int, vals c = some v → v = (mineCountIn M (eqs c) : Int)

/-- C1 counterexample input: on the 3x1 board with the mine at `(0, 0)`,
select `(1, 0)` (count 1), then select the mine `(0, 0)` (defeat).  Now a
mine is exposed, the solver tracking matches the true exposure state, yet
`find_safe_and_mine` reports the perfectly safe cell `(2, 0)` as a mine. -/
def game3x1d : Game :=
  (Game.init { width := 3, height := 1, num_mines := 1 }
    (fun c => decide (c = ((0 : Int), (0 : Int))))).run
    [Op.selectOp (1, 0), Op.selectOp (0, 0)]

/-- The 2x1 game after the opening move `select(0, 0)` (count 1). -/
def game2x1s : Game := game2x1.applyOp (Op.selectOp (0, 0))

/-! ### Grid geometry lemmas -/

lemma mem_gridCells {w h : Nat} {c : Coord} :
    c ∈ gridCells w h ↔ 0 ≤ c.1 ∧ c.1 < (w : Int) ∧ 0 ≤ c.2 ∧ c.2 < (h : Int) := by
  rcases c with ⟨x, y⟩
  simp only [gridCells, Finset.mem_product, Finset.mem_Icc]
  omega

lemma inBoard_iff_mem {w h : Nat} {c : Coord} :
    inBoard w h c = true ↔ c ∈ gridCells w h := by
  rw [mem_gridCells]
  simp [inBoard]

lemma is_outside_board_eq (g : Game) (c : Coord) :
    g.is_outside_board c = !inBoard g.width g.height c := by
  rw [Bool.eq_iff_iff]
  simp only [Game.is_outside_board, inBoard, Bool.or_eq_true, decide_eq_true_eq,
    Bool.not_eq_true', decide_eq_false_iff_not]
  constructor
  · intro hcase
    intro hin
    rcases hin with ⟨h1, h2, h3, h4⟩
    omega
  · intro hni
    by_contra hall
    push_neg at hall
    exact hni ⟨by omega, by omega, by omega, by omega⟩

lemma gridCells_card (w h : Nat) : (gridCells w h).card = w * h := by
  unfold gridCells
  rw [Finset.card_product, Int.card_Icc, Int.card_Icc]
  have hw : ((w : Int) - 1 + 1 - 0).toNat = w := by omega
  have hh : ((h : Int) - 1 + 1 - 0).toNat = h := by omega
  rw [hw, hh]

lemma mem_offsets_iff {d : Int × Int} :
    d ∈ offsets ↔ d ≠ (0, 0) ∧ d.1.natAbs ≤ 1 ∧ d.2.natAbs ≤ 1 := by
  rcases d with ⟨a, b⟩
  constructor
  · intro hmem
    simp only [offsets, List.mem_cons, List.not_mem_nil, or_false] at hmem
    rcases hmem with h | h | h | h | h | h | h | h <;>
      (rw [Prod.mk.injEq] at h; rcases h with ⟨rfl, rfl⟩) <;> simp
  · rintro ⟨hne, ha, hb⟩
    have hne2 : ¬(a = 0 ∧ b = 0) := by
      intro hz
      exact hne (by rw [hz.1, hz.2])
    have ha3 : a = -1 ∨ a = 0 ∨ a = 1 := by omega
    have hb3 : b = -1 ∨ b = 0 ∨ b = 1 := by omega
    rcases ha3 with rfl | rfl | rfl <;> rcases hb3 with rfl | rfl | rfl <;>
      first
      | decide
      | exact absurd rfl hne

lemma offsets_nodup : offsets.Nodup := by decide

lemma adjacent_iff_offsets {c n : Coord} :
    adjacent c n ↔ (n.1 - c.1, n.2 - c.2) ∈ offsets := by
  rw [mem_offsets_iff]
  unfold adjacent
  constructor
  · rintro ⟨hne, h1, h2⟩
    refine ⟨?_, by omega, by omega⟩
    intro hz
    rw [Prod.mk.injEq] at hz
    exact hne (Prod.ext_iff.mpr ⟨by omega, by omega⟩)
  · rintro ⟨hne, h1, h2⟩
    refine ⟨?_, by omega, by omega⟩
    intro hz
    subst hz
    exact hne (by simp)

lemma mem_neighborsOf_iff {c n : Coord} : n ∈ neighborsOf c ↔ adjacent c n := by
  unfold neighborsOf
  rw [adjacent_iff_offsets]
  simp only [List.mem_map]
  constructor
  · rintro ⟨d, hd, rfl⟩
    have : ((c.1 + d.1 - c.1, c.2 + d.2 - c.2) : Int × Int) = d := by
      rw [Prod.ext_iff]
      constructor <;> simp
    rw [this]
    exact hd
  · intro hd
    refine ⟨(n.1 - c.1, n.2 - c.2), hd, ?_⟩
    rw [Prod.ext_iff]
    constructor <;> simp

lemma neighborsOf_nodup (c : Coord) : (neighborsOf c).Nodup := by
  unfold neighborsOf
  refine List.Nodup.map ?_ offsets_nodup
  intro d1 d2 hde
  rw [Prod.mk.injEq] at hde
  rw [Prod.ext_iff]
  exact ⟨by omega, by omega⟩

lemma countsFrom_eq (w h : Nat) (M : Coord → Bool) (c : Coord) :
    countsFrom w h M c = trueNeighborMineCount w h M c := by
  unfold countsFrom trueNeighborMineCount
  have hnd : ((neighborsOf c).filter (fun n => inBoard w h n && M n)).Nodup :=
    (neighborsOf_nodup c).filter _
  rw [← List.toFinset_card_of_nodup hnd]
  congr 1
  ext n
  simp only [List.mem_toFinset, List.mem_filter, Finset.mem_filter, mem_neighborsOf_iff,
    Bool.and_eq_true, ← inBoard_iff_mem]
  tauto

lemma countZero_no_adjacent_mine {w h : Nat} {M : Coord → Bool} {c n : Coord}
    (hc : countsFrom w h M c = 0) (hadj : adjacent c n) (hn : inBoard w h n = true) :
    M n = false := by
  rw [countsFrom_eq] at hc
  unfold trueNeighborMineCount at hc
  rw [Finset.card_eq_zero] at hc
  by_contra hM
  rw [Bool.not_eq_false] at hM
  have : n ∈ (gridCells w h).filter (fun n => adjacent c n ∧ M n = true) :=
    Finset.mem_filter.mpr ⟨inBoard_iff_mem.mp hn, hadj, hM⟩
  rw [hc] at this
  exact absurd this (Finset.not_mem_empty n)

lemma boardMineCount_placeMines {w h : Nat} {locs : Finset Coord}
    (hsub : locs ⊆ gridCells w h) :
    boardMineCount w h (placeMines locs) = locs.card := by
  unfold boardMineCount placeMines
  congr 1
  ext c
  simp only [Finset.mem_filter, decide_eq_true_eq]
  exact ⟨fun hx => hx.2, fun hx => ⟨hsub hx, hx⟩⟩

lemma boardMineCount_le (w h : Nat) (M : Coord → Bool) :
    boardMineCount w h M ≤ w * h := by
  unfold boardMineCount
  calc ((gridCells w h).filter (fun c => M c = true)).card
      ≤ (gridCells w h).card := Finset.card_filter_le _ _
    _ = w * h := gridCells_card w h

lemma connIn_mono {S T : List Coord} (hsub : ∀ x ∈ S, x ∈ T) {a b : Coord}
    (hc : ConnIn S a b) : ConnIn T a b := by
  induction hc with
  | refl => exact Relation.ReflTransGen.refl
  | tail h1 h2 ih => exact Relation.ReflTransGen.tail ih ⟨hsub _ h2.1, h2.2⟩

lemma unexposedCount_expose {g : Game} {n : Coord}
    (hin : inBoard g.width g.height n = true) (hexp : g.exposed n = false) :
    unexposedCount (g.expose_square n) + 1 = unexposedCount g := by
  unfold unexposedCount Game.expose_square
  have hset :
      ((gridCells g.width g.height).filter
        (fun c => (if c = n then true else g.exposed c) = false)) =
      ((gridCells g.width g.height).filter (fun c => g.exposed c = false)).erase n := by
    ext c
    simp only [Finset.mem_filter, Finset.mem_erase]
    by_cases hc : c = n
    · subst hc
      simp
    · simp [hc]
  simp only []
  rw [hset]
  exact Finset.card_erase_add_one
    (Finset.mem_filter.mpr ⟨inBoard_iff_mem.mp hin, hexp⟩)

lemma floodVisit_spec (g0 : Game) (c0 c : Coord) (st : FloodState) (n : Coord)
    (hadj : adjacent c n) (hc : c ∈ coordsOf st.squares) (hc0 : g0.counts c = 0)
    (hinv : FloodInvP g0 c0 [c] st) :
    FloodInvP g0 c0 [c] (floodVisit st n) ∧
    (inBoard g0.width g0.height n = true → (floodVisit st n).g.exposed n = true) ∧
    (∀ m : Coord, st.g.exposed m = true → (floodVisit st n).g.exposed m = true) ∧
    (∀ m ∈ coordsOf st.squares, m ∈ coordsOf (floodVisit st n).squares) ∧
    (∀ m ∈ st.stack, m ∈ (floodVisit st n).stack) ∧
    9 * unexposedCount (floodVisit st n).g + (floodVisit st n).stack.length ≤
      9 * unexposedCount st.g + st.stack.length := by
  unfold floodVisit
  by_cases hcond : (!st.g.is_outside_board n && !st.g.exposed n) = true
  · rw [if_pos hcond]
    rw [Bool.and_eq_true, Bool.not_eq_true', Bool.not_eq_true'] at hcond
    obtain ⟨hout, hexpn⟩ := hcond
    have hinb : inBoard g0.width g0.height n = true := by
      have := is_outside_board_eq st.g n
      rw [hout] at this
      have hb : inBoard st.g.width st.g.height n = true := by
        cases hb2 : inBoard st.g.width st.g.height n
        · rw [hb2] at this
          exact absurd this.symm (by decide)
        · rfl
      rwa [hinv.wEq, hinv.hEq] at hb
    have hnotin : n ∉ coordsOf st.squares := by
      intro hmem
      have := (hinv.expIff n).mpr (Or.inr hmem)
      rw [hexpn] at this
      exact absurd this (by decide)
    have hg0n : g0.exposed n = false := by
      cases hg : g0.exposed n
      · rfl
      · have := (hinv.expIff n).mpr (Or.inl hg)
        rw [hexpn] at this
        exact absurd this (by decide)
    have hcoords : coordsOf (st.squares ++ [{ x := n.1, y := n.2, num_mines := st.g.counts n }]) =
        coordsOf st.squares ++ [n] := by
      unfold coordsOf
      rw [List.map_append]
      rfl
    have hsubC : ∀ m ∈ coordsOf st.squares, m ∈ coordsOf st.squares ++ [n] := by
      intro m hm
      exact List.mem_append_left _ hm
    have hstackSub : ∀ m ∈ st.stack,
        m ∈ (if st.g.test_if_count_0 n then n :: st.stack else st.stack) := by
      intro m hm
      by_cases hz : st.g.test_if_count_0 n = true
      · rw [if_pos hz]
        exact List.mem_cons_of_mem _ hm
      · rw [if_neg hz]
        exact hm
    refine ⟨?_, ?_, ?_, ?_, ?_, ?_⟩
    · refine
        { wEq := hinv.wEq
          hEq := hinv.hEq
          mEq := hinv.mEq
          cEq := hinv.cEq
          nmEq := hinv.nmEq
          mvEq := hinv.mvEq
          exEq := hinv.exEq
          qEq := hinv.qEq
          expIff := ?_
          sqNodup := ?_
          sqNew := ?_
          sqIn := ?_
          sqCnt := ?_
          numEq := ?_
          stackSq := ?_
          stackZero := ?_
          conn := ?_
          closure := ?_
          sqSafe := ?_
          origin := ?_ }
      · intro m
        rw [hcoords]
        simp only [Game.expose_square, List.mem_append, List.mem_singleton]
        by_cases hm : m = n
        · subst hm
          simp
        · rw [if_neg hm]
          rw [hinv.expIff m]
          tauto
      · rw [hcoords]
        rw [List.nodup_append]
        exact ⟨hinv.sqNodup, List.nodup_singleton n, by
          intro a ha hb
          rw [List.mem_singleton] at hb
          subst hb
          exact hnotin ha⟩
      · intro s hs
        rw [List.mem_append, List.mem_singleton] at hs
        rcases hs with hs | hs
        · exact hinv.sqNew s hs
        · subst hs
          exact hg0n
      · intro s hs
        rw [List.mem_append, List.mem_singleton] at hs
        rcases hs with hs | hs
        · exact hinv.sqIn s hs
        · subst hs
          exact hinb
      · intro s hs
        rw [List.mem_append, List.mem_singleton] at hs
        rcases hs with hs | hs
        · exact hinv.sqCnt s hs
        · subst hs
          simp only []
          rw [hinv.cEq]
      · simp only [Game.expose_square, List.length_append, List.length_singleton]
        rw [hinv.numEq]
        omega
      · intro m hm
        rw [hcoords]
        by_cases hz : st.g.test_if_count_0 n = true
        · rw [if_pos hz] at hm
          rcases List.mem_cons.mp hm with hm | hm
          · subst hm
            exact List.mem_append_right _ (List.mem_singleton.mpr rfl)
          · exact hsubC m (hinv.stackSq m hm)
        · rw [if_neg hz] at hm
          exact hsubC m (hinv.stackSq m hm)
      · intro m hm
        by_cases hz : st.g.test_if_count_0 n = true
        · rw [if_pos hz] at hm
          rcases List.mem_cons.mp hm with hm | hm
          · subst hm
            unfold Game.test_if_count_0 at hz
            rw [decide_eq_true_eq] at hz
            rw [← hinv.cEq]
            exact hz
          · exact hinv.stackZero m hm
        · rw [if_neg hz] at hm
          exact hinv.stackZero m hm
      · intro p hp
        rw [hcoords] at hp ⊢
        rcases List.mem_append.mp hp with hp | hp
        · exact connIn_mono hsubC (hinv.conn p hp)
        · rw [List.mem_singleton] at hp
          subst hp
          refine Relation.ReflTransGen.tail (connIn_mono hsubC (hinv.conn c hc)) ?_
          exact ⟨List.mem_append_right _ (List.mem_singleton.mpr rfl), hadj⟩
      · intro s hs hz
        rw [List.mem_append, List.mem_singleton] at hs
        rcases hs with hs | hs
        · rcases hinv.closure s hs hz with hcl | hcl | hcl
          · exact Or.inl (hstackSub _ hcl)
          · exact Or.inr (Or.inl hcl)
          · refine Or.inr (Or.inr ?_)
            intro m hm hmb
            simp only [Game.expose_square]
            by_cases hmn : m = n
            · rw [if_pos hmn]
            · rw [if_neg hmn]
              exact hcl m hm hmb
        · subst hs
          simp only []
          by_cases hz2 : st.g.test_if_count_0 n = true
          · rw [if_pos hz2]
            exact Or.inl (List.mem_cons_self _ _)
          · exfalso
            unfold Game.test_if_count_0 at hz2
            rw [hinv.cEq] at hz2
            simp only [decide_eq_true_eq] at hz2
            exact hz2 hz
      · intro hcs hm0 s hs
        rw [List.mem_append, List.mem_singleton] at hs
        rcases hs with hs | hs
        · exact hinv.sqSafe hcs hm0 s hs
        · subst hs
          exact hcs c n hc0 hadj hinb
      · rw [hcoords]
        exact hsubC c0 hinv.origin
    · intro _
      simp [Game.expose_square]
    · intro m hm
      simp only [Game.expose_square]
      by_cases hmn : m = n
      · rw [if_pos hmn]
      · rw [if_neg hmn]
        exact hm
    · intro m hm
      rw [hcoords]
      exact hsubC m hm
    · exact hstackSub
    · have hUx : unexposedCount (st.g.expose_square n) + 1 = unexposedCount st.g := by
        refine unexposedCount_expose ?_ hexpn
        rwa [hinv.wEq, hinv.hEq]
      have hlen : (if st.g.test_if_count_0 n then n :: st.stack else st.stack).length ≤
          st.stack.length + 1 := by
        by_cases hz : st.g.test_if_count_0 n = true
        · rw [if_pos hz]
          simp
        · rw [if_neg hz]
          omega
      simp only []
      omega
  · rw [if_neg hcond]
    have hskip : inBoard g0.width g0.height n = true → st.g.exposed n = true := by
      intro hinb
      rw [Bool.and_eq_true, Bool.not_eq_true', Bool.not_eq_true'] at hcond
      by_cases hexp : st.g.exposed n = true
      · exact hexp
      · exfalso
        apply hcond
        constructor
        · rw [is_outside_board_eq]
          rw [hinv.wEq, hinv.hEq, hinb]
          rfl
        · rw [Bool.not_eq_true] at hexp
          exact hexp
    exact ⟨hinv, hskip, fun m hm => hm, fun m hm => hm, fun m hm => hm, le_refl _⟩

@[simp] lemma expose_square_mines (g : Game) (c : Coord) :
    (g.expose_square c).mines = g.mines := rfl

@[simp] lemma expose_square_counts (g : Game) (c : Coord) :
    (g.expose_square c).counts = g.counts := rfl

@[simp] lemma expose_square_width (g : Game) (c : Coord) :
    (g.expose_square c).width = g.width := rfl

@[simp] lemma expose_square_height (g : Game) (c : Coord) :
    (g.expose_square c).height = g.height := rfl

lemma floodFold_spec (g0 : Game) (c0 c : Coord) (hc0 : g0.counts c = 0) :
    ∀ (L : List Coord) (st : FloodState),
      (∀ n ∈ L, adjacent c n) → c ∈ coordsOf st.squares → FloodInvP g0 c0 [c] st →
      FloodInvP g0 c0 [c] (L.foldl floodVisit st) ∧
      (∀ n ∈ L, inBoard g0.width g0.height n = true →
        (L.foldl floodVisit st).g.exposed n = true) ∧
      (∀ m : Coord, st.g.exposed m = true → (L.foldl floodVisit st).g.exposed m = true) ∧
      (∀ m ∈ coordsOf st.squares, m ∈ coordsOf (L.foldl floodVisit st).squares) ∧
      (∀ m ∈ st.stack, m ∈ (L.foldl floodVisit st).stack) ∧
      9 * unexposedCount (L.foldl floodVisit st).g + (L.foldl floodVisit st).stack.length ≤
        9 * unexposedCount st.g + st.stack.length := by
  intro L
  induction L with
  | nil =>
    intro st hadjL hc hinv
    refine ⟨hinv, ?_, fun m hm => hm, fun m hm => hm, fun m hm => hm, le_refl _⟩
    intro n hn
    exact absurd hn (List.not_mem_nil n)
  | cons n L ih =>
    intro st hadjL hc hinv
    have hadjn : adjacent c n := hadjL n (List.mem_cons_self n L)
    obtain ⟨v1, v2, v3, v4, v5, v6⟩ := floodVisit_spec g0 c0 c st n hadjn hc hc0 hinv
    have hc2 : c ∈ coordsOf (floodVisit st n).squares := v4 c hc
    obtain ⟨f1, f2, f3, f4, f5, f6⟩ :=
      ih (floodVisit st n) (fun m hm => hadjL m (List.mem_cons_of_mem n hm)) hc2 v1
    rw [List.foldl_cons]
    refine ⟨f1, ?_, fun m hm => f3 m (v3 m hm), fun m hm => f4 m (v4 m hm),
      fun m hm => f5 m (v5 m hm), le_trans f6 v6⟩
    intro m hm hmb
    rcases List.mem_cons.mp hm with hm | hm
    · subst hm
      exact f3 m (v2 hmb)
    · exact f2 m hm hmb

lemma floodCell_spec (g0 : Game) (c0 c : Coord) (rest : List Coord)
    (g : Game) (squares : List Square)
    (hinv : FloodInvP g0 c0 [] ⟨g, c :: rest, squares⟩) :
    FloodInvP g0 c0 [] (floodCell ⟨g, rest, squares⟩ c) ∧
    9 * unexposedCount (floodCell ⟨g, rest, squares⟩ c).g +
      (floodCell ⟨g, rest, squares⟩ c).stack.length ≤
      9 * unexposedCount g + rest.length := by
  have hcmem : c ∈ coordsOf squares := hinv.stackSq c (List.mem_cons_self c rest)
  have hc0 : g0.counts c = 0 := hinv.stackZero c (List.mem_cons_self c rest)
  have hpop : FloodInvP g0 c0 [c] ⟨g, rest, squares⟩ := by
    refine
      { wEq := hinv.wEq
        hEq := hinv.hEq
        mEq := hinv.mEq
        cEq := hinv.cEq
        nmEq := hinv.nmEq
        mvEq := hinv.mvEq
        exEq := hinv.exEq
        qEq := hinv.qEq
        expIff := hinv.expIff
        sqNodup := hinv.sqNodup
        sqNew := hinv.sqNew
        sqIn := hinv.sqIn
        sqCnt := hinv.sqCnt
        numEq := hinv.numEq
        stackSq := fun m hm => hinv.stackSq m (List.mem_cons_of_mem c hm)
        stackZero := fun m hm => hinv.stackZero m (List.mem_cons_of_mem c hm)
        conn := hinv.conn
        closure := ?_
        sqSafe := hinv.sqSafe
        origin := hinv.origin }
    intro s hs hz
    rcases hinv.closure s hs hz with hcl | hcl | hcl
    · rcases List.mem_cons.mp hcl with hcl | hcl
      · exact Or.inr (Or.inl (by rw [hcl]; exact List.mem_singleton.mpr rfl))
      · exact Or.inl hcl
    · exact absurd hcl (List.not_mem_nil _)
    · exact Or.inr (Or.inr hcl)
  have hadjL : ∀ n ∈ neighborsOf c, adjacent c n := fun n hn => mem_neighborsOf_iff.mp hn
  obtain ⟨f1, f2, f3, f4, f5, f6⟩ :=
    floodFold_spec g0 c0 c hc0 (neighborsOf c) ⟨g, rest, squares⟩ hadjL hcmem hpop
  unfold floodCell
  refine ⟨?_, f6⟩
  refine
    { wEq := f1.wEq
      hEq := f1.hEq
      mEq := f1.mEq
      cEq := f1.cEq
      nmEq := f1.nmEq
      mvEq := f1.mvEq
      exEq := f1.exEq
      qEq := f1.qEq
      expIff := f1.expIff
      sqNodup := f1.sqNodup
      sqNew := f1.sqNew
      sqIn := f1.sqIn
      sqCnt := f1.sqCnt
      numEq := f1.numEq
      stackSq := f1.stackSq
      stackZero := f1.stackZero
      conn := f1.conn
      closure := ?_
      sqSafe := f1.sqSafe
      origin := f1.origin }
  intro s hs hz
  rcases f1.closure s hs hz with hcl | hcl | hcl
  · exact Or.inl hcl
  · rw [List.mem_singleton] at hcl
    refine Or.inr (Or.inr ?_)
    intro n hn hnb
    rw [hcl] at hn
    exact f2 n (mem_neighborsOf_iff.mpr hn) hnb
  · exact Or.inr (Or.inr hcl)

lemma floodLoop_spec (g0 : Game) (c0 : Coord) :
    ∀ (fuel : Nat) (st : FloodState),
      FloodInvP g0 c0 [] st →
      9 * unexposedCount st.g + st.stack.length < fuel →
      FloodInvP g0 c0 []
        { g := (floodLoop fuel st).1, stack := [], squares := (floodLoop fuel st).2 } := by
  intro fuel
  induction fuel with
  | zero =>
    intro st hinv hfuel
    omega
  | succ f ih =>
    intro st hinv hfuel
    obtain ⟨g, stack, squares⟩ := st
    cases stack with
    | nil =>
      simp only [floodLoop]
      exact hinv
    | cons c rest =>
      obtain ⟨hstep, hmeas⟩ := floodCell_spec g0 c0 c rest g squares hinv
      simp only [floodLoop]
      refine ih _ hstep ?_
      simp only [unexposedCount] at hmeas hfuel ⊢
      simp only [List.length_cons] at hfuel
      omega

/-! ### Facts about `Game._update` -/

lemma update_eq_mine (g0 : Game) (c0 : Coord) (hm : g0.mines c0 = true) :
    g0.update c0 = ({ g0.expose_square c0 with explosion := true },
      [{ x := c0.1, y := c0.2, num_mines := g0.counts c0 }]) := by
  unfold Game.update
  simp [hm]

lemma update_eq_nonzero (g0 : Game) (c0 : Coord) (hm : g0.mines c0 = false)
    (hc : g0.counts c0 ≠ 0) :
    g0.update c0 = (g0.expose_square c0,
      [{ x := c0.1, y := c0.2, num_mines := g0.counts c0 }]) := by
  unfold Game.update
  simp [hm, hc]

lemma update_eq_zero (g0 : Game) (c0 : Coord) (hm : g0.mines c0 = false)
    (hc : g0.counts c0 = 0) :
    g0.update c0 = floodLoop (9 * g0.width * g0.height + 1)
      { g := g0.expose_square c0, stack := [c0],
        squares := [{ x := c0.1, y := c0.2, num_mines := g0.counts c0 }] } := by
  unfold Game.update
  simp [hm, hc]

lemma unexposedCount_le (g : Game) : unexposedCount g ≤ g.width * g.height := by
  unfold unexposedCount
  calc ((gridCells g.width g.height).filter (fun c => g.exposed c = false)).card
      ≤ (gridCells g.width g.height).card := Finset.card_filter_le _ _
    _ = g.width * g.height := gridCells_card _ _

lemma update_spec (g0 : Game) (c0 : Coord)
    (hin : inBoard g0.width g0.height c0 = true) (hexp : g0.exposed c0 = false) :
    UpdateFacts g0 c0 (g0.update c0).1 (g0.update c0).2 := by
  have hcoords1 : coordsOf [{ x := c0.1, y := c0.2, num_mines := g0.counts c0 }] = [c0] := rfl
  have hmem1 : c0 ∈ coordsOf [{ x := c0.1, y := c0.2, num_mines := g0.counts c0 }] := by
    rw [hcoords1]
    exact List.mem_singleton.mpr rfl
  have hexpIff1 : ∀ n : Coord, (g0.expose_square c0).exposed n = true ↔
      (g0.exposed n = true ∨ n ∈ coordsOf [{ x := c0.1, y := c0.2, num_mines := g0.counts c0 }]) := by
    intro n
    rw [hcoords1]
    simp only [Game.expose_square, List.mem_singleton]
    by_cases hn : n = c0
    · subst hn
      simp
    · rw [if_neg hn]
      simp [hn]
  have hsingleNew : ∀ s ∈ ([{ x := c0.1, y := c0.2, num_mines := g0.counts c0 }] : List Square),
      g0.exposed (s.x, s.y) = false := by
    intro s hs
    rw [List.mem_singleton] at hs
    subst hs
    exact hexp
  have hsingleIn : ∀ s ∈ ([{ x := c0.1, y := c0.2, num_mines := g0.counts c0 }] : List Square),
      inBoard g0.width g0.height (s.x, s.y) = true := by
    intro s hs
    rw [List.mem_singleton] at hs
    subst hs
    exact hin
  have hsingleCnt : ∀ s ∈ ([{ x := c0.1, y := c0.2, num_mines := g0.counts c0 }] : List Square),
      s.num_mines = g0.counts (s.x, s.y) := by
    intro s hs
    rw [List.mem_singleton] at hs
    subst hs
    rfl
  have hsingleConn : ∀ p ∈ coordsOf [{ x := c0.1, y := c0.2, num_mines := g0.counts c0 }],
      ConnIn (coordsOf [{ x := c0.1, y := c0.2, num_mines := g0.counts c0 }]) c0 p := by
    intro p hp
    rw [hcoords1, List.mem_singleton] at hp
    subst hp
    exact Relation.ReflTransGen.refl
  by_cases hm : g0.mines c0 = true
  · rw [update_eq_mine g0 c0 hm]
    refine
      { wEq := rfl
        hEq := rfl
        mEq := rfl
        cEq := rfl
        nmEq := rfl
        mvEq := rfl
        qEq := rfl
        exEq := by rw [hm, Bool.or_true]
        expIff := hexpIff1
        sqNodup := by rw [hcoords1]; exact List.nodup_singleton c0
        sqNew := hsingleNew
        sqIn := hsingleIn
        sqCnt := hsingleCnt
        numEq := by simp [Game.expose_square]
        origin := hmem1
        conn := hsingleConn
        closure := ?_
        sqSafe := ?_
        mineCase := fun _ => rfl }
    · intro hm0
      rw [hm0] at hm
      exact absurd hm (by decide)
    · intro _ hm0
      rw [hm0] at hm
      exact absurd hm (by decide)
  · rw [Bool.not_eq_true] at hm
    by_cases hz : g0.counts c0 = 0
    · rw [update_eq_zero g0 c0 hm hz]
      set st0 : FloodState :=
        { g := g0.expose_square c0, stack := [c0],
          squares := [{ x := c0.1, y := c0.2, num_mines := g0.counts c0 }] } with hst0
      have hinv0 : FloodInvP g0 c0 [] st0 := by
        refine
          { wEq := rfl
            hEq := rfl
            mEq := rfl
            cEq := rfl
            nmEq := rfl
            mvEq := rfl
            exEq := rfl
            qEq := rfl
            expIff := hexpIff1
            sqNodup := by rw [hcoords1]; exact List.nodup_singleton c0
            sqNew := hsingleNew
            sqIn := hsingleIn
            sqCnt := hsingleCnt
            numEq := by simp [Game.expose_square]
            stackSq := ?_
            stackZero := ?_
            conn := hsingleConn
            closure := ?_
            sqSafe := ?_
            origin := hmem1 }
        · intro m hmem
          rw [List.mem_singleton] at hmem
          subst hmem
          exact hmem1
        · intro m hmem
          rw [List.mem_singleton] at hmem
          subst hmem
          exact hz
        · intro s hs hz2
          exact Or.inl (by
            rw [List.mem_singleton] at hs
            subst hs
            exact List.mem_singleton.mpr rfl)
        · intro _ _ s hs
          rw [List.mem_singleton] at hs
          subst hs
          exact hm
      have hU : unexposedCount (g0.expose_square c0) + 1 = unexposedCount g0 :=
        unexposedCount_expose hin hexp
      have hU0 : unexposedCount g0 ≤ g0.width * g0.height := unexposedCount_le g0
      have h9 : 9 * g0.width * g0.height = 9 * (g0.width * g0.height) := by ring
      have hfuel : 9 * unexposedCount st0.g + st0.stack.length <
          9 * g0.width * g0.height + 1 := by
        simp only [hst0, List.length_singleton]
        omega
      have hfin := floodLoop_spec g0 c0 (9 * g0.width * g0.height + 1) st0 hinv0 hfuel
      refine
        { wEq := hfin.wEq
          hEq := hfin.hEq
          mEq := hfin.mEq
          cEq := hfin.cEq
          nmEq := hfin.nmEq
          mvEq := hfin.mvEq
          qEq := hfin.qEq
          exEq := by rw [hfin.exEq, hm, Bool.or_false]
          expIff := hfin.expIff
          sqNodup := hfin.sqNodup
          sqNew := hfin.sqNew
          sqIn := hfin.sqIn
          sqCnt := hfin.sqCnt
          numEq := hfin.numEq
          origin := hfin.origin
          conn := hfin.conn
          closure := ?_
          sqSafe := hfin.sqSafe
          mineCase := ?_ }
      · intro _ _ s hs hz2 n hn hnb
        rcases hfin.closure s hs hz2 with hcl | hcl | hcl
        · exact absurd hcl (List.not_mem_nil _)
        · exact absurd hcl (List.not_mem_nil _)
        · exact hcl n hn hnb
      · intro hmt
        rw [hmt] at hm
        exact absurd hm (by decide)
    · rw [update_eq_nonzero g0 c0 hm hz]
      refine
        { wEq := rfl
          hEq := rfl
          mEq := rfl
          cEq := rfl
          nmEq := rfl
          mvEq := rfl
          qEq := rfl
          exEq := by rw [hm, Bool.or_false]; rfl
          expIff := hexpIff1
          sqNodup := by rw [hcoords1]; exact List.nodup_singleton c0
          sqNew := hsingleNew
          sqIn := hsingleIn
          sqCnt := hsingleCnt
          numEq := by simp [Game.expose_square]
          origin := hmem1
          conn := hsingleConn
          closure := ?_
          sqSafe := ?_
          mineCase := ?_ }
      · intro _ hz2
        exact absurd hz2 hz
      · intro _ _ s hs
        rw [List.mem_singleton] at hs
        subst hs
        exact hm
      · intro _
        rfl

lemma select_eq_outside (g : Game) (c : Coord) (h1 : g.is_outside_board c = true) :
    g.select c = Except.error SelectErr.outsideBoard := by
  unfold Game.select
  simp [h1]

lemma select_eq_over (g : Game) (c : Coord) (h1 : g.is_outside_board c = false)
    (h2 : g.explosion = true) :
    g.select c = Except.error SelectErr.alreadyOver := by
  unfold Game.select
  simp [h1, h2]

lemma select_eq_exposed (g : Game) (c : Coord) (h1 : g.is_outside_board c = false)
    (h2 : g.explosion = false) (h3 : g.exposed c = true) :
    g.select c = Except.error SelectErr.alreadyExposed := by
  unfold Game.select
  simp [h1, h2, h3]

lemma select_eq_ok (g : Game) (c : Coord) (h1 : g.is_outside_board c = false)
    (h2 : g.explosion = false) (h3 : g.exposed c = false) :
    g.select c = Except.ok
      ({ status := (g.bump.update c).1.status,
         new_squares := (g.bump.update c).2.toFinset },
       (g.bump.update c).1) := by
  unfold Game.select Game.bump
  simp [h1, h2, h3]

lemma select_ok_dest {g : Game} {c : Coord} {pr : MoveResult × Game}
    (h : g.select c = Except.ok pr) :
    g.is_outside_board c = false ∧ g.explosion = false ∧ g.exposed c = false ∧
    pr.2 = (g.bump.update c).1 ∧
    pr.1 = { status := (g.bump.update c).1.status,
             new_squares := (g.bump.update c).2.toFinset } := by
  by_cases h1 : g.is_outside_board c = true
  · rw [select_eq_outside g c h1] at h
    exact absurd h (by simp)
  rw [Bool.not_eq_true] at h1
  by_cases h2 : g.explosion = true
  · rw [select_eq_over g c h1 h2] at h
    exact absurd h (by simp)
  rw [Bool.not_eq_true] at h2
  by_cases h3 : g.exposed c = true
  · rw [select_eq_exposed g c h1 h2 h3] at h
    exact absurd h (by simp)
  rw [Bool.not_eq_true] at h3
  rw [select_eq_ok g c h1 h2 h3] at h
  injection h with h
  exact ⟨h1, h2, h3, by rw [← h], by rw [← h]⟩

lemma inBoard_of_not_outside {g : Game} {c : Coord} (h : g.is_outside_board c = false) :
    inBoard g.width g.height c = true := by
  have := is_outside_board_eq g c
  rw [h] at this
  cases hb : inBoard g.width g.height c
  · rw [hb] at this
    exact absurd this.symm (by decide)
  · rfl

lemma trueNeighborMineCount_zero {w h : Nat} {M : Coord → Bool} {a b : Coord}
    (hc : trueNeighborMineCount w h M a = 0) (hadj : adjacent a b)
    (hb : inBoard w h b = true) : M b = false := by
  unfold trueNeighborMineCount at hc
  rw [Finset.card_eq_zero] at hc
  by_contra hM
  rw [Bool.not_eq_false] at hM
  have : b ∈ (gridCells w h).filter (fun n => adjacent a n ∧ M n = true) :=
    Finset.mem_filter.mpr ⟨inBoard_iff_mem.mp hb, hadj, hM⟩
  rw [hc] at this
  exact absurd this (Finset.not_mem_empty b)

lemma init_inv (cfg : GameConfig) (M : Coord → Bool) : GameInv (Game.init cfg M) := by
  refine
    { countsOK := fun c => countsFrom_eq cfg.width cfg.height M c
      numOK := ?_
      expIn := fun c hc => absurd hc (by simp [Game.init])
      mineSafe := fun _ c hc => absurd hc (by simp [Game.init])
      explosionWitness := fun hx => absurd hx (by simp [Game.init]) }
  unfold Game.exposedSet Game.init
  simp

lemma countsOK_zero_safe {g : Game}
    (hc : ∀ c : Coord, g.counts c = trueNeighborMineCount g.width g.height g.mines c) :
    ∀ a b : Coord, g.counts a = 0 → adjacent a b →
      inBoard g.width g.height b = true → g.mines b = false := by
  intro a b hz hadj hb
  rw [hc a] at hz
  exact trueNeighborMineCount_zero hz hadj hb

lemma exposedSet_update {g0 : Game} {c0 : Coord} {g1 : Game} {sqs : List Square}
    (hu : UpdateFacts g0 c0 g1 sqs) :
    g1.exposedSet = g0.exposedSet ∪ (coordsOf sqs).toFinset := by
  unfold Game.exposedSet
  rw [hu.wEq, hu.hEq]
  ext n
  simp only [Finset.mem_union, Finset.mem_filter, List.mem_toFinset]
  constructor
  · rintro ⟨hg, hx⟩
    rcases (hu.expIff n).mp hx with hx | hx
    · exact Or.inl ⟨hg, hx⟩
    · exact Or.inr hx
  · rintro (⟨hg, hx⟩ | hx)
    · exact ⟨hg, (hu.expIff n).mpr (Or.inl hx)⟩
    · refine ⟨?_, (hu.expIff n).mpr (Or.inr hx)⟩
      obtain ⟨s, hs, rfl⟩ := List.mem_map.mp hx
      exact inBoard_iff_mem.mp (hu.sqIn s hs)

lemma exposedSet_disjoint {g0 : Game} {c0 : Coord} {g1 : Game} {sqs : List Square}
    (hu : UpdateFacts g0 c0 g1 sqs) :
    Disjoint g0.exposedSet (coordsOf sqs).toFinset := by
  rw [Finset.disjoint_left]
  intro n hn hmem
  rw [List.mem_toFinset] at hmem
  obtain ⟨s, hs, rfl⟩ := List.mem_map.mp hmem
  have := hu.sqNew s hs
  have h2 := (Finset.mem_filter.mp hn).2
  rw [this] at h2
  exact absurd h2 (by decide)

lemma inv_update {g : Game} {c : Coord} (hI : GameInv g)
    (hin : inBoard g.width g.height c = true) (hexp : g.exposed c = false) :
    GameInv (g.bump.update c).1 := by
  have hu : UpdateFacts g.bump c (g.bump.update c).1 (g.bump.update c).2 :=
    update_spec g.bump c hin hexp
  set g1 := (g.bump.update c).1 with hg1
  set sqs := (g.bump.update c).2 with hsqs
  have hWidth : g1.width = g.width := hu.wEq
  have hHeight : g1.height = g.height := hu.hEq
  have hMines : g1.mines = g.mines := hu.mEq
  have hCounts : g1.counts = g.counts := hu.cEq
  refine
    { countsOK := ?_
      numOK := ?_
      expIn := ?_
      mineSafe := ?_
      explosionWitness := ?_ }
  · intro cc
    rw [hCounts, hWidth, hHeight, hMines]
    exact hI.countsOK cc
  · rw [hu.numEq, exposedSet_update hu,
      Finset.card_union_of_disjoint (exposedSet_disjoint hu),
      List.toFinset_card_of_nodup hu.sqNodup]
    have hlen : (coordsOf sqs).length = sqs.length := by
      unfold coordsOf
      exact List.length_map _ _
    have hnum : g.bump.numExposedSquares = g.bump.exposedSet.card := hI.numOK
    rw [hlen, hnum]
  · intro cc hcc
    rw [hWidth, hHeight]
    rcases (hu.expIff cc).mp hcc with hx | hx
    · exact hI.expIn cc hx
    · obtain ⟨s, hs, rfl⟩ := List.mem_map.mp hx
      exact hu.sqIn s hs
  · intro hx cc hcc
    rw [hu.exEq, Bool.or_eq_false_iff] at hx
    rw [hMines]
    rcases (hu.expIff cc).mp hcc with h2 | h2
    · exact hI.mineSafe hx.1 cc h2
    · obtain ⟨s, hs, rfl⟩ := List.mem_map.mp h2
      exact hu.sqSafe (countsOK_zero_safe hI.countsOK) hx.2 s hs
  · intro hx
    rw [hu.exEq, Bool.or_eq_true] at hx
    rcases hx with hx | hx
    · obtain ⟨cw, hcw1, hcw2⟩ := hI.explosionWitness hx
      refine ⟨cw, (hu.expIff cw).mpr (Or.inl hcw1), ?_⟩
      rw [hMines]
      exact hcw2
    · refine ⟨c, (hu.expIff c).mpr (Or.inr hu.origin), ?_⟩
      rw [hMines]
      exact hx

lemma applyOp_select_ok {g : Game} {c : Coord} {pr : MoveResult × Game}
    (h : g.select c = Except.ok pr) : g.applyOp (Op.selectOp c) = pr.2 := by
  simp only [Game.applyOp, h]

lemma applyOp_select_err {g : Game} {c : Coord} {e : SelectErr}
    (h : g.select c = Except.error e) : g.applyOp (Op.selectOp c) = g := by
  simp only [Game.applyOp, h]

lemma applyOp_quit_eq (g : Game) : g.applyOp Op.quitOp = g.quit := rfl

lemma inv_applyOp {g : Game} (hI : GameInv g) (op : Op) : GameInv (g.applyOp op) := by
  cases op with
  | quitOp =>
    exact
      { countsOK := hI.countsOK
        numOK := hI.numOK
        expIn := hI.expIn
        mineSafe := hI.mineSafe
        explosionWitness := hI.explosionWitness }
  | selectOp c =>
    cases hsel : g.select c with
    | error e =>
      rw [applyOp_select_err hsel]
      exact hI
    | ok pr =>
      obtain ⟨h1, h2, h3, hg, _⟩ := select_ok_dest hsel
      rw [applyOp_select_ok hsel, hg]
      exact inv_update hI (inBoard_of_not_outside h1) h3

lemma reachable_inv {g0 g : Game} (hInit : GameInv g0) (hR : Reachable g0 g) : GameInv g := by
  induction hR with
  | refl => exact hInit
  | step op _ ih => exact inv_applyOp ih op

lemma init_reachable_inv {cfg : GameConfig} {M : Coord → Bool} {g : Game}
    (hR : Reachable (Game.init cfg M) g) : GameInv g :=
  reachable_inv (init_inv cfg M) hR

lemma applyOp_frame (g : Game) (op : Op) :
    (g.applyOp op).width = g.width ∧ (g.applyOp op).height = g.height ∧
    (g.applyOp op).num_mines = g.num_mines ∧ (g.applyOp op).mines = g.mines ∧
    (g.applyOp op).counts = g.counts ∧
    g.numExposedSquares ≤ (g.applyOp op).numExposedSquares := by
  cases op with
  | quitOp => exact ⟨rfl, rfl, rfl, rfl, rfl, le_refl _⟩
  | selectOp c =>
    cases hsel : g.select c with
    | error e =>
      rw [applyOp_select_err hsel]
      exact ⟨rfl, rfl, rfl, rfl, rfl, le_refl _⟩
    | ok pr =>
      obtain ⟨h1, h2, h3, hg, _⟩ := select_ok_dest hsel
      have hu : UpdateFacts g.bump c (g.bump.update c).1 (g.bump.update c).2 :=
        update_spec g.bump c (inBoard_of_not_outside h1) h3
      rw [applyOp_select_ok hsel, hg]
      refine ⟨hu.wEq, hu.hEq, hu.nmEq, hu.mEq, hu.cEq, ?_⟩
      rw [hu.numEq]
      exact Nat.le_add_right _ _

lemma reachable_frame {g0 g : Game} (hR : Reachable g0 g) :
    g.width = g0.width ∧ g.height = g0.height ∧ g.num_mines = g0.num_mines ∧
    g.mines = g0.mines ∧ g.counts = g0.counts ∧
    g0.numExposedSquares ≤ g.numExposedSquares := by
  induction hR with
  | refl => exact ⟨rfl, rfl, rfl, rfl, rfl, le_refl _⟩
  | step op _ ih =>
    obtain ⟨f1, f2, f3, f4, f5, f6⟩ := applyOp_frame _ op
    obtain ⟨i1, i2, i3, i4, i5, i6⟩ := ih
    exact ⟨f1.trans i1, f2.trans i2, f3.trans i3, f4.trans i4, f5.trans i5, le_trans i6 f6⟩

/-! ### Status characterizations -/

lemma status_PLAYING_iff (g : Game) :
    g.status = GameStatus.PLAYING ↔ g.game_over = false := by
  unfold Game.status
  cases hgo : g.game_over
  all_goals cases hq : g.quitFlag
  all_goals cases he : g.explosion
  all_goals simp [hgo, hq, he]

lemma status_QUIT_iff (g : Game) : g.status = GameStatus.QUIT ↔ g.quitFlag = true := by
  unfold Game.status Game.game_over
  cases he : g.explosion <;> cases hq : g.quitFlag <;>
    by_cases hn : g.numExposedSquares = g.num_safe_squares <;> simp [he, hq, hn]

lemma status_DEFEAT_iff (g : Game) :
    g.status = GameStatus.DEFEAT ↔ g.quitFlag = false ∧ g.explosion = true := by
  unfold Game.status Game.game_over
  cases he : g.explosion <;> cases hq : g.quitFlag <;>
    by_cases hn : g.numExposedSquares = g.num_safe_squares <;> simp [he, hq, hn]

lemma status_VICTORY_iff (g : Game) :
    g.status = GameStatus.VICTORY ↔
      g.explosion = false ∧ g.quitFlag = false ∧
        g.numExposedSquares = g.num_safe_squares := by
  unfold Game.status Game.game_over
  cases he : g.explosion <;> cases hq : g.quitFlag <;>
    by_cases hn : g.numExposedSquares = g.num_safe_squares <;> simp [he, hq, hn]

/-! ### C2: the 3x3 concrete scenario -/

/-- C2 counterexample: on the 3x3 board with the mine at `(2, 2)`,
`select(0, 0)` does NOT stop at the four cells the claim lists: the flood
fill continues through the zero-count cells `(1, 0)`, `(2, 0)`, `(0, 1)`,
`(0, 2)`, exposing all eight non-mine cells — in particular `(2, 1)` and
`(1, 2)` ARE exposed, the exposure count is `8` (not `4`), and the
returned status is `VICTORY` (not `PLAYING`). -/
theorem c2_counterexample :
    Except.map (fun pr => pr.1.status) (game3x3.select (0, 0)) =
      Except.ok GameStatus.VICTORY ∧
    game3x3r.status ≠ GameStatus.PLAYING ∧
    game3x3r.numExposedSquares = 8 ∧
    game3x3r.numExposedSquares ≠ 4 ∧
    game3x3r.exposed (2, 1) = true ∧
    game3x3r.exposed (1, 2) = true := by
  refine ⟨by decide, by decide, by decide, by decide, by decide, by decide⟩

/-- C2 (amended): on the 3x3 board with a single mine at `(2, 2)` and no
prior moves, `select(0, 0)` exposes exactly the eight non-mine cells —
`(0,0)`, `(1,0)`, `(2,0)`, `(0,1)`, `(0,2)` with count 0 and `(1,1)`,
`(2,1)`, `(1,2)` with count 1 — only `(2, 2)` remains unexposed, the
returned status is `VICTORY`, and the total exposed-cell count after the
move is `8`. -/
theorem c2_amended :
    Except.map (fun pr => pr.1.status) (game3x3.select (0, 0)) =
      Except.ok GameStatus.VICTORY ∧
    Except.map (fun pr => pr.1.new_squares) (game3x3.select (0, 0)) =
      Except.ok
        ({ { x := 0, y := 0, num_mines := 0 }, { x := 1, y := 0, num_mines := 0 },
           { x := 2, y := 0, num_mines := 0 }, { x := 0, y := 1, num_mines := 0 },
           { x := 0, y := 2, num_mines := 0 }, { x := 1, y := 1, num_mines := 1 },
           { x := 2, y := 1, num_mines := 1 }, { x := 1, y := 2, num_mines := 1 } } :
          Finset Square) ∧
    game3x3r.numExposedSquares = 8 ∧
    game3x3r.exposed (2, 2) = false ∧
    game3x3r.exposedSet =
      ({(0, 0), (1, 0), (2, 0), (0, 1), (1, 1), (2, 1), (0, 2), (1, 2)} :
        Finset Coord) := by
  refine ⟨by decide, by decide, by decide, by decide, by decide⟩

/-! ### C3: status transition law -/

/-- C3 counterexample: `select` only checks the explosion flag, so after
`quit()` (status `QUIT`, not `PLAYING`) a further `select(0, 0)` on the
2x1 board still succeeds and mutates the board: it exposes `(0, 0)` and
increments the move counter.  Moreover the exposed count then equals
`width*height - num_mines` while the status is `QUIT`, not `VICTORY`. -/
theorem c3_counterexample :
    game2x1q.status = GameStatus.QUIT ∧
    game2x1q.status ≠ GameStatus.PLAYING ∧
    game2x1q.exposed (0, 0) = false ∧
    game2x1qs.exposed (0, 0) = true ∧
    game2x1qs.num_moves = game2x1q.num_moves + 1 ∧
    game2x1qs.numExposedSquares =
      game2x1qs.width * game2x1qs.height - game2x1qs.num_mines ∧
    game2x1qs.status = GameStatus.QUIT ∧
    game2x1qs.status ≠ GameStatus.VICTORY := by
  refine ⟨by decide, by decide, by decide, by decide, by decide, by decide, by decide,
    by decide⟩

/-- C3 (amended): from `PLAYING`, a successful select of a mine cell
yields `DEFEAT`; the status is `VICTORY` exactly when the exposed count
has reached `width*height - num_mines` with the explosion and quit flags
both down; the status is `QUIT` exactly when `quit()` was invoked; and
`select` refuses to mutate only after an explosion (`DEFEAT`) — after
`QUIT` or `VICTORY` a `select` may still mutate the board (see the
counterexample). -/
theorem c3_amended :
    (∀ (g : Game) (c : Coord) (r : MoveResult) (g2 : Game),
      g.status = GameStatus.PLAYING → g.select c = Except.ok (r, g2) →
      g.mines c = true → r.status = GameStatus.DEFEAT) ∧
    (∀ g : Game, g.status = GameStatus.VICTORY ↔
      g.explosion = false ∧ g.quitFlag = false ∧
        g.numExposedSquares = g.width * g.height - g.num_mines) ∧
    (∀ g : Game, g.status = GameStatus.QUIT ↔ g.quitFlag = true) ∧
    (∀ (g : Game) (c : Coord), g.status = GameStatus.DEFEAT →
      g.applyOp (Op.selectOp c) = g) := by
  refine ⟨?_, ?_, ?_, ?_⟩
  · intro g c r g2 hst hsel hm
    obtain ⟨h1, h2, h3, hg, hr⟩ := select_ok_dest hsel
    have hu := update_spec g.bump c (inBoard_of_not_outside h1) h3
    have hgo : g.game_over = false := (status_PLAYING_iff g).mp hst
    unfold Game.game_over at hgo
    rw [Bool.or_eq_false_iff, Bool.or_eq_false_iff] at hgo
    have hq : g.quitFlag = false := hgo.1.2
    have hrs : r.status = (g.bump.update c).1.status := congrArg MoveResult.status hr
    rw [hrs, status_DEFEAT_iff]
    constructor
    · rw [hu.qEq]
      exact hq
    · rw [hu.exEq]
      show (g.explosion || g.mines c) = true
      rw [h2, hm]
      rfl
  · intro g
    exact status_VICTORY_iff g
  · intro g
    exact status_QUIT_iff g
  · intro g c hst
    have hx : g.explosion = true := ((status_DEFEAT_iff g).mp hst).2
    by_cases hout : g.is_outside_board c = true
    · exact applyOp_select_err (select_eq_outside g c hout)
    · rw [Bool.not_eq_true] at hout
      exact applyOp_select_err (select_eq_over g c hout hx)

/-- Witness for C3 (amended) at concrete inputs: on the fresh 2x1 board
(status `PLAYING`) selecting the mine `(1, 0)` gives status `DEFEAT`, and
after `quit()` the status is `QUIT`. -/
theorem c3_amended_witness :
    game2x1.status = GameStatus.PLAYING ∧
    game2x1.mines (1, 0) = true ∧
    Except.map (fun pr => pr.1.status) (game2x1.select (1, 0)) =
      Except.ok GameStatus.DEFEAT ∧
    (game2x1q.status = GameStatus.QUIT ↔ game2x1q.quitFlag = true) := by
  refine ⟨by decide, by decide, ?_, c3_amended.2.2.1 game2x1q⟩
  cases hsel : game2x1.select ((1 : Int), (0 : Int)) with
  | error e =>
    rw [select_eq_ok game2x1 (1, 0) (by decide) (by decide) (by decide)] at hsel
    exact absurd hsel (by simp)
  | ok pr =>
    have hd := c3_amended.1 game2x1 (1, 0) pr.1 pr.2 (by decide) (by rw [hsel]) (by decide)
    simp only [Except.map, hd]

/-! ### C4: construction postcondition -/

/-- C4: for every configuration with `num_mines < width*height`, after
construction — either from a supplied layout containing `num_mines` mines,
or from random placement (modelled by the set of distinct board locations
the sampling loop of `_place_mines` produces) — exactly `num_mines` board
cells carry a mine, and the count of every cell equals the number of mines
among its in-board 8-neighbors. -/
theorem c4_construction (cfg : GameConfig)
    (_hlt : cfg.num_mines < cfg.width * cfg.height)
    (locs : Finset Coord) (hsub : locs ⊆ gridCells cfg.width cfg.height)
    (hcard : locs.card = cfg.num_mines)
    (M : Coord → Bool)
    (hM : boardMineCount cfg.width cfg.height M = cfg.num_mines) :
    boardMineCount cfg.width cfg.height (Game.init cfg (placeMines locs)).mines =
      cfg.num_mines ∧
    boardMineCount cfg.width cfg.height (Game.init cfg M).mines = cfg.num_mines ∧
    (∀ c : Coord, (Game.init cfg (placeMines locs)).counts c =
      trueNeighborMineCount cfg.width cfg.height (placeMines locs) c) ∧
    (∀ c : Coord, (Game.init cfg M).counts c =
      trueNeighborMineCount cfg.width cfg.height M c) := by
  refine ⟨?_, hM, fun c => countsFrom_eq cfg.width cfg.height (placeMines locs) c,
    fun c => countsFrom_eq cfg.width cfg.height M c⟩
  exact (boardMineCount_placeMines hsub).trans hcard

/-- Witness for C4 at a concrete input: a 2x2 board with one mine. -/
theorem c4_construction_witness :
    boardMineCount 2 2 (Game.init { width := 2, height := 2, num_mines := 1 }
      (placeMines {((0 : Int), (0 : Int))})).mines = 1 ∧
    (∀ c : Coord, (Game.init { width := 2, height := 2, num_mines := 1 }
      (placeMines {((0 : Int), (0 : Int))})).counts c =
      trueNeighborMineCount 2 2 (placeMines {((0 : Int), (0 : Int))}) c) := by
  have h := c4_construction { width := 2, height := 2, num_mines := 1 } (by decide)
    {((0 : Int), (0 : Int))} (by decide) (by decide)
    (placeMines {((0 : Int), (0 : Int))}) (by decide)
  exact ⟨h.1, h.2.2.1⟩

/-! ### C5: the flood-fill region -/

/-- C5: for every valid select (`select` succeeds) on a non-mine cell of
count zero, the emitted square list of `_update` repeats no coordinate,
every emitted coordinate was unexposed before the call, the emitted
coordinates form a single 8-connected region containing the selected cell
(each one is linked to it by a chain of 8-adjacent emitted cells), and
every emitted zero-count cell has all of its in-board neighbors exposed
after the move — the boundary of the region is made of nonzero-count cells and
board edges.  The `MoveResult` carries exactly this list as a set. -/
theorem c5_flood_region (g : Game) (c : Coord) (r : MoveResult) (g2 : Game)
    (hsel : g.select c = Except.ok (r, g2))
    (hm : g.mines c = false) (hz : g.counts c = 0) :
    (coordsOf (g.bump.update c).2).Nodup ∧
    r.new_squares = (g.bump.update c).2.toFinset ∧
    (∀ s ∈ (g.bump.update c).2, g.exposed (s.x, s.y) = false) ∧
    c ∈ coordsOf (g.bump.update c).2 ∧
    (∀ p ∈ coordsOf (g.bump.update c).2, ConnIn (coordsOf (g.bump.update c).2) c p) ∧
    (∀ s ∈ (g.bump.update c).2, g.counts (s.x, s.y) = 0 →
      ∀ n : Coord, adjacent (s.x, s.y) n → inBoard g.width g.height n = true →
        g2.exposed n = true) := by
  obtain ⟨h1, h2, h3, hg, hr⟩ := select_ok_dest hsel
  have hu := update_spec g.bump c (inBoard_of_not_outside h1) h3
  have hg2 : g2 = (g.bump.update c).1 := hg
  have hrn : r.new_squares = (g.bump.update c).2.toFinset :=
    congrArg MoveResult.new_squares hr
  refine ⟨hu.sqNodup, hrn, hu.sqNew, hu.origin, hu.conn, ?_⟩
  intro s hs hsz n hn hnb
  rw [hg2]
  exact hu.closure hm hz s hs hsz n hn hnb

/-- Witness for C5 at a concrete input: `select(0, 0)` on the 3x3 board. -/
theorem c5_flood_region_witness :
    (coordsOf (game3x3.bump.update (0, 0)).2).Nodup ∧
    (0, 0) ∈ coordsOf (game3x3.bump.update (0, 0)).2 ∧
    (∀ p ∈ coordsOf (game3x3.bump.update (0, 0)).2,
      ConnIn (coordsOf (game3x3.bump.update (0, 0)).2) (0, 0) p) := by
  cases hsel : game3x3.select ((0 : Int), (0 : Int)) with
  | error e =>
    rw [select_eq_ok game3x3 (0, 0) (by decide) (by decide) (by decide)] at hsel
    exact absurd hsel (by simp)
  | ok pr =>
    obtain ⟨hnodup, _, _, horig, hconn, _⟩ :=
      c5_flood_region game3x3 (0, 0) pr.1 pr.2 (by rw [hsel]) (by decide) (by decide)
    exact ⟨hnodup, horig, hconn⟩

/-! ### C6: exposure-count invariant -/

/-- C6: in every game reachable from a construction whose layout has
exactly `num_mines` board mines: (a) a successful `select` raises the
exposure counter by exactly the size of the returned record set; (b) no
operation ever lowers the counter; (c) while the status is `PLAYING` or
`VICTORY` the counter never exceeds `width*height - num_mines`. -/
theorem c6_exposure_count (cfg : GameConfig) (M : Coord → Bool)
    (hM : boardMineCount cfg.width cfg.height M = cfg.num_mines)
    (g : Game) (hR : Reachable (Game.init cfg M) g) :
    (∀ (c : Coord) (r : MoveResult) (g2 : Game), g.select c = Except.ok (r, g2) →
      g2.numExposedSquares = g.numExposedSquares + r.new_squares.card) ∧
    (∀ op : Op, g.numExposedSquares ≤ (g.applyOp op).numExposedSquares) ∧
    ((g.status = GameStatus.PLAYING ∨ g.status = GameStatus.VICTORY) →
      g.numExposedSquares ≤ cfg.width * cfg.height - cfg.num_mines) := by
  refine ⟨?_, ?_, ?_⟩
  · intro c r g2 hsel
    obtain ⟨h1, h2, h3, hg, hr⟩ := select_ok_dest hsel
    have hu := update_spec g.bump c (inBoard_of_not_outside h1) h3
    have hg2 : g2 = (g.bump.update c).1 := hg
    have hrn : r.new_squares = (g.bump.update c).2.toFinset :=
      congrArg MoveResult.new_squares hr
    have hsqnd : (g.bump.update c).2.Nodup := hu.sqNodup.of_map
    rw [hg2, hrn, hu.numEq, List.toFinset_card_of_nodup hsqnd]
    rfl
  · intro op
    exact (applyOp_frame g op).2.2.2.2.2
  · intro hst
    have hI := init_reachable_inv hR
    obtain ⟨hw, hh, hnm, hmines, _, _⟩ := reachable_frame hR
    have hexplo : g.explosion = false := by
      rcases hst with hst | hst
      · have hgo := (status_PLAYING_iff g).mp hst
        unfold Game.game_over at hgo
        rw [Bool.or_eq_false_iff, Bool.or_eq_false_iff] at hgo
        exact hgo.1.1
      · exact ((status_VICTORY_iff g).mp hst).1
    have hsub : g.exposedSet ⊆
        (gridCells g.width g.height).filter (fun c => g.mines c = false) := by
      intro c hc
      have hcmem := Finset.mem_filter.mp hc
      exact Finset.mem_filter.mpr ⟨hcmem.1, hI.mineSafe hexplo c hcmem.2⟩
    have hcard : g.exposedSet.card ≤
        ((gridCells g.width g.height).filter (fun c => g.mines c = false)).card :=
      Finset.card_le_card hsub
    have hsplit : ((gridCells g.width g.height).filter (fun c => g.mines c = true)).card +
        ((gridCells g.width g.height).filter (fun c => ¬ g.mines c = true)).card =
        (gridCells g.width g.height).card :=
      Finset.filter_card_add_filter_neg_card_eq_card (fun c => g.mines c = true)
    have hfneg : ((gridCells g.width g.height).filter (fun c => ¬ g.mines c = true)).card =
        ((gridCells g.width g.height).filter (fun c => g.mines c = false)).card := by
      congr 1
      apply Finset.filter_congr
      intro x _
      simp [Bool.not_eq_true]
    have hmc : ((gridCells g.width g.height).filter (fun c => g.mines c = true)).card =
        cfg.num_mines := by
      have : boardMineCount g.width g.height g.mines = cfg.num_mines := by
        rw [hw, hh, hmines]
        exact hM
      exact this
    have hgc : (gridCells g.width g.height).card = cfg.width * cfg.height := by
      rw [hw, hh]
      exact gridCells_card cfg.width cfg.height
    rw [hI.numOK]
    omega

/-- Witness for C6 at a concrete input: the freshly constructed 2x1 game
(one mine at `(1, 0)`). -/
theorem c6_exposure_count_witness :
    boardMineCount 2 1 mines2x1 = 1 ∧
    game2x1.numExposedSquares ≤ (game2x1.applyOp Op.quitOp).numExposedSquares ∧
    game2x1.numExposedSquares ≤ 2 * 1 - 1 := by
  have h := c6_exposure_count { width := 2, height := 1, num_mines := 1 } mines2x1
    (by decide) game2x1 Reachable.refl
  exact ⟨by decide, h.2.1 Op.quitOp, h.2.2 (Or.inl (by decide))⟩

/-! ### C7: the error conditions of select -/

/-- C7: in every reachable game, `select(x, y)` returns the out-of-bounds
error exactly when `(x, y)` lies outside `[0,width) x [0,height)`; for an
in-bounds coordinate it returns the already-over error exactly when a mine
has already been exposed (the explosion flag of the code equals that
condition in every reachable state); otherwise it returns the
already-exposed error exactly when the cell is already exposed; and in all
remaining cases it returns a `MoveResult` normally. -/
theorem c7_select_errors (cfg : GameConfig) (M : Coord → Bool) (g : Game)
    (hR : Reachable (Game.init cfg M) g) (c : Coord) :
    (g.select c = Except.error SelectErr.outsideBoard ↔
      inBoard g.width g.height c = false) ∧
    (inBoard g.width g.height c = true →
      (g.select c = Except.error SelectErr.alreadyOver ↔
        ∃ m : Coord, g.exposed m = true ∧ g.mines m = true)) ∧
    (inBoard g.width g.height c = true →
      (¬ ∃ m : Coord, g.exposed m = true ∧ g.mines m = true) →
      (g.select c = Except.error SelectErr.alreadyExposed ↔ g.exposed c = true)) ∧
    (inBoard g.width g.height c = true →
      (¬ ∃ m : Coord, g.exposed m = true ∧ g.mines m = true) →
      g.exposed c = false → ∃ pr, g.select c = Except.ok pr) := by
  have hI := init_reachable_inv hR
  have hxiff : g.explosion = true ↔ ∃ m : Coord, g.exposed m = true ∧ g.mines m = true := by
    constructor
    · exact hI.explosionWitness
    · rintro ⟨m, hm1, hm2⟩
      by_contra hx
      rw [Bool.not_eq_true] at hx
      have := hI.mineSafe hx m hm1
      rw [hm2] at this
      exact absurd this (by decide)
  have houtc : g.is_outside_board c = !inBoard g.width g.height c := is_outside_board_eq g c
  refine ⟨?_, ?_, ?_, ?_⟩
  · constructor
    · intro hsel
      by_contra hb
      rw [Bool.not_eq_false] at hb
      have hout : g.is_outside_board c = false := by rw [houtc, hb]; rfl
      cases hx : g.explosion with
      | true =>
        rw [select_eq_over g c hout hx] at hsel
        exact absurd hsel (by simp)
      | false =>
        cases hexp : g.exposed c with
        | true =>
          rw [select_eq_exposed g c hout hx hexp] at hsel
          exact absurd hsel (by simp)
        | false =>
          rw [select_eq_ok g c hout hx hexp] at hsel
          exact absurd hsel (by simp)
    · intro hb
      refine select_eq_outside g c ?_
      rw [houtc, hb]
      rfl
  · intro hin
    have hout : g.is_outside_board c = false := by rw [houtc, hin]; rfl
    rw [← hxiff]
    constructor
    · intro hsel
      cases hx : g.explosion with
      | true => rfl
      | false =>
        cases hexp : g.exposed c with
        | true =>
          rw [select_eq_exposed g c hout hx hexp] at hsel
          exact absurd hsel (by simp)
        | false =>
          rw [select_eq_ok g c hout hx hexp] at hsel
          exact absurd hsel (by simp)
    · intro hx
      exact select_eq_over g c hout hx
  · intro hin hnomine
    have hout : g.is_outside_board c = false := by rw [houtc, hin]; rfl
    have hx : g.explosion = false := by
      cases hx2 : g.explosion with
      | false => rfl
      | true => exact absurd (hxiff.mp hx2) hnomine
    constructor
    · intro hsel
      cases hexp : g.exposed c with
      | true => rfl
      | false =>
        rw [select_eq_ok g c hout hx hexp] at hsel
        exact absurd hsel (by simp)
    · intro hexp
      exact select_eq_exposed g c hout hx hexp
  · intro hin hnomine hexp
    have hout : g.is_outside_board c = false := by rw [houtc, hin]; rfl
    have hx : g.explosion = false := by
      cases hx2 : g.explosion with
      | false => rfl
      | true => exact absurd (hxiff.mp hx2) hnomine
    exact ⟨_, select_eq_ok g c hout hx hexp⟩

/-- Witness for C7 at concrete inputs: on the fresh 2x1 game, selecting
`(5, 0)` raises the out-of-bounds error, and selecting `(0, 0)` succeeds. -/
theorem c7_select_errors_witness :
    game2x1.select (5, 0) = Except.error SelectErr.outsideBoard ∧
    (∃ pr, game2x1.select (0, 0) = Except.ok pr) := by
  have hnomine : ¬ ∃ m : Coord, game2x1.exposed m = true ∧ game2x1.mines m = true := by
    rintro ⟨m, hm1, _⟩
    simp [game2x1, Game.init] at hm1
  have h1 := c7_select_errors { width := 2, height := 1, num_mines := 1 } mines2x1
    game2x1 Reachable.refl (5, 0)
  have h2 := c7_select_errors { width := 2, height := 1, num_mines := 1 } mines2x1
    game2x1 Reachable.refl (0, 0)
  exact ⟨h1.1.mpr (by decide), h2.2.2.2 (by decide) hnomine (by decide)⟩

/-! ### C8: reading the result -/

lemma applyOp_num_moves (g : Game) (c : Coord) :
    (g.applyOp (Op.selectOp c)).num_moves =
      g.num_moves + (if g.selectOk c then 1 else 0) := by
  cases hsel : g.select c with
  | error e =>
    rw [applyOp_select_err hsel]
    unfold Game.selectOk
    rw [hsel]
    simp
  | ok pr =>
    rw [applyOp_select_ok hsel]
    obtain ⟨h1, h2, h3, hg, _⟩ := select_ok_dest hsel
    have hu := update_spec g.bump c (inBoard_of_not_outside h1) h3
    unfold Game.selectOk
    rw [hg, hsel]
    have hmv : (g.bump.update c).1.num_moves = g.num_moves + 1 := hu.mvEq
    rw [hmv]
    simp

lemma run_num_moves (g : Game) (ops : List Op) :
    (g.run ops).num_moves = g.num_moves + g.successCount ops := by
  induction ops generalizing g with
  | nil =>
    unfold Game.run Game.successCount
    omega
  | cons op ops ih =>
    cases op with
    | selectOp c =>
      show ((g.applyOp (Op.selectOp c)).run ops).num_moves = _
      rw [ih]
      rw [applyOp_num_moves g c]
      have hsc : g.successCount (Op.selectOp c :: ops) =
          (if g.selectOk c then 1 else 0) + (g.applyOp (Op.selectOp c)).successCount ops := rfl
      rw [hsc]
      omega
    | quitOp =>
      show ((g.applyOp Op.quitOp).run ops).num_moves = _
      rw [ih]
      have hsc : g.successCount (Op.quitOp :: ops) =
          (g.applyOp Op.quitOp).successCount ops := rfl
      rw [hsc]
      rfl

/-- C8: after any run of operations from construction, reading `result`
raises the invalid-state error exactly when the game is not terminal;
when the game is terminal it returns the record whose `victory` field is
true exactly when the status is `VICTORY` and whose move count equals the
number of successful `select` calls of the run. -/
theorem c8_result (cfg : GameConfig) (M : Coord → Bool) (ops : List Op) :
    (((Game.init cfg M).run ops).result = Except.error () ↔
      ((Game.init cfg M).run ops).game_over = false) ∧
    (((Game.init cfg M).run ops).game_over = true →
      ((Game.init cfg M).run ops).result = Except.ok
        { victory := decide (((Game.init cfg M).run ops).status = GameStatus.VICTORY),
          num_moves := (Game.init cfg M).successCount ops }) := by
  constructor
  · unfold Game.result
    cases hgo : ((Game.init cfg M).run ops).game_over with
    | false => simp
    | true => simp
  · intro hgo
    unfold Game.result
    rw [hgo]
    have hmv : ((Game.init cfg M).run ops).num_moves = (Game.init cfg M).successCount ops := by
      rw [run_num_moves]
      simp [Game.init]
    rw [hmv]
    rfl

/-- Witness for C8 at a concrete input: on the 2x1 board, the single move
`select(1, 0)` hits the mine; the game is over, the result is a defeat
with one (successful) move. -/
theorem c8_result_witness :
    ((Game.init { width := 2, height := 1, num_mines := 1 } mines2x1).run
        [Op.selectOp (1, 0)]).game_over = true ∧
    ((Game.init { width := 2, height := 1, num_mines := 1 } mines2x1).run
        [Op.selectOp (1, 0)]).result =
      Except.ok { victory := false, num_moves := 1 } := by
  refine ⟨by decide, ?_⟩
  have h := (c8_result { width := 2, height := 1, num_mines := 1 } mines2x1
    [Op.selectOp (1, 0)]).2 (by decide)
  rw [h]
  decide

/-! ### C10: atomicity of select on error -/

/-- C10: whenever `select` raises, the game is left completely unchanged —
in the source all three precondition checks precede every mutation, and in
the embedding the erroring branches return no new state at all. -/
theorem c10_select_atomic (g : Game) (c : Coord) (e : SelectErr)
    (herr : g.select c = Except.error e) :
    g.applyOp (Op.selectOp c) = g ∧
    (g.applyOp (Op.selectOp c)).exposed = g.exposed ∧
    (g.applyOp (Op.selectOp c)).num_moves = g.num_moves ∧
    (g.applyOp (Op.selectOp c)).explosion = g.explosion ∧
    (g.applyOp (Op.selectOp c)).numExposedSquares = g.numExposedSquares := by
  have h := applyOp_select_err herr
  exact ⟨h, by rw [h], by rw [h], by rw [h], by rw [h]⟩

/-- Witness for C10 at a concrete input: the out-of-bounds select `(5, 5)`
leaves the 2x1 game unchanged. -/
theorem c10_select_atomic_witness :
    game2x1.applyOp (Op.selectOp (5, 5)) = game2x1 :=
  (c10_select_atomic game2x1 (5, 5) SelectErr.outsideBoard
    (select_eq_outside game2x1 (5, 5) (by decide))).1

lemma newMinesOf_subset (w h : Nat) (eqs : Coord → Finset Coord)
    (vals : Coord → Option Int) :
    newMinesOf w h eqs vals ⊆ unionEqs w h eqs := by
  intro x hx
  rw [newMinesOf, Finset.mem_biUnion] at hx
  obtain ⟨c, hc, hxc⟩ := hx
  by_cases hcond :
      (truthy (vals c) && decide (vals c = some ((eqs c).card : Int))) = true
  · rw [if_pos hcond] at hxc
    exact Finset.mem_biUnion.mpr ⟨c, hc, hxc⟩
  · rw [if_neg hcond] at hxc
    exact absurd hxc (Finset.not_mem_empty x)

lemma newSafeOf_subset (w h : Nat) (eqs : Coord → Finset Coord)
    (vals : Coord → Option Int) :
    newSafeOf w h eqs vals ⊆ unionEqs w h eqs := by
  intro x hx
  rw [newSafeOf, Finset.mem_biUnion] at hx
  obtain ⟨c, hc, hxc⟩ := hx
  by_cases hcond : vals c = some 0
  · rw [if_pos hcond] at hxc
    exact Finset.mem_biUnion.mpr ⟨c, hc, hxc⟩
  · rw [if_neg hcond] at hxc
    exact absurd hxc (Finset.not_mem_empty x)

lemma unionEqs_mono {w h : Nat} {eqs eqs2 : Coord → Finset Coord}
    (hsub : ∀ c ∈ gridCells w h, eqs2 c ⊆ eqs c) :
    unionEqs w h eqs2 ⊆ unionEqs w h eqs := by
  intro x hx
  rw [unionEqs, Finset.mem_biUnion] at hx
  obtain ⟨c, hc, hxc⟩ := hx
  exact Finset.mem_biUnion.mpr ⟨c, hc, hsub c hc hxc⟩

lemma fsmTermInv_step {w h : Nat} {eqs0 eqs : Coord → Finset Coord}
    {mines_ safe_ NM NS : Finset Coord}
    (hinv : FsmTermInv w h eqs0 eqs mines_ safe_)
    (hNM : NM ⊆ unionEqs w h eqs)
    (hNS : NS ⊆ unionEqs w h (fun c => eqs c \ NM)) :
    FsmTermInv w h eqs0 (fun c => (eqs c \ NM) \ NS) (NM ∪ mines_) (NS ∪ safe_) := by
  have hshrink : ∀ c ∈ gridCells w h, (fun c => eqs c \ NM) c ⊆ eqs c :=
    fun c _ => Finset.sdiff_subset
  have hU1 : unionEqs w h (fun c => eqs c \ NM) ⊆ unionEqs w h eqs :=
    unionEqs_mono hshrink
  have hU0 : unionEqs w h eqs ⊆ unionEqs w h eqs0 := unionEqs_mono hinv.sub
  refine { sub := ?_, disj := ?_, acc := ?_ }
  · intro c hc
    exact (Finset.sdiff_subset.trans Finset.sdiff_subset).trans (hinv.sub c hc)
  · intro c hc
    rw [Finset.disjoint_union_right, Finset.disjoint_union_right,
      Finset.disjoint_union_right]
    have hsubc : (eqs c \ NM) \ NS ⊆ eqs c := Finset.sdiff_subset.trans Finset.sdiff_subset
    have hdisj0 := hinv.disj c hc
    refine ⟨⟨?_, ?_⟩, ?_, ?_⟩
    · exact (Finset.sdiff_disjoint).mono_left Finset.sdiff_subset
    · exact (hdisj0.mono_right Finset.subset_union_left).mono_left hsubc
    · exact Finset.sdiff_disjoint
    · exact (hdisj0.mono_right Finset.subset_union_right).mono_left hsubc
  · have hm : mines_ ∪ safe_ ⊆ unionEqs w h eqs0 := hinv.acc
    refine Finset.union_subset (Finset.union_subset ?_ ?_) (Finset.union_subset ?_ ?_)
    · exact hNM.trans hU0
    · exact (Finset.subset_union_left.trans hm)
    · exact (hNS.trans hU1).trans hU0
    · exact (Finset.subset_union_right.trans hm)

lemma fsmTermInv_decrease {w h : Nat} {eqs0 eqs : Coord → Finset Coord}
    {mines_ safe_ NM NS : Finset Coord}
    (hinv : FsmTermInv w h eqs0 eqs mines_ safe_)
    (hNM : NM ⊆ unionEqs w h eqs)
    (hNS : NS ⊆ unionEqs w h (fun c => eqs c \ NM))
    (hch : ¬(NM ∪ mines_ = mines_ ∧ NS ∪ safe_ = safe_)) :
    (unionEqs w h eqs0 \ ((NM ∪ mines_) ∪ (NS ∪ safe_))).card <
      (unionEqs w h eqs0 \ (mines_ ∪ safe_)).card := by
  have hU0 : unionEqs w h eqs ⊆ unionEqs w h eqs0 := unionEqs_mono hinv.sub
  have hgrow : mines_ ∪ safe_ ⊆ (NM ∪ mines_) ∪ (NS ∪ safe_) :=
    Finset.union_subset
      (Finset.subset_union_right.trans Finset.subset_union_left)
      (Finset.subset_union_right.trans Finset.subset_union_right)
  have hmono : unionEqs w h eqs0 \ ((NM ∪ mines_) ∪ (NS ∪ safe_)) ⊆
      unionEqs w h eqs0 \ (mines_ ∪ safe_) :=
    Finset.sdiff_subset_sdiff (Finset.Subset.refl _) hgrow
  -- produce a classified coordinate that was unclassified before
  have hx : ∃ x, x ∈ unionEqs w h eqs0 ∧ x ∉ mines_ ∪ safe_ ∧
      x ∈ (NM ∪ mines_) ∪ (NS ∪ safe_) := by
    rw [not_and_or] at hch
    rcases hch with hch | hch
    · have : ¬ NM ⊆ mines_ := fun hsubm => hch (Finset.union_eq_right.mpr hsubm)
      obtain ⟨x, hxNM, _⟩ := Finset.not_subset.mp this
      have hxU : x ∈ unionEqs w h eqs := hNM hxNM
      rw [unionEqs, Finset.mem_biUnion] at hxU
      obtain ⟨c, hc, hxc⟩ := hxU
      have hnot : x ∉ mines_ ∪ safe_ :=
        Finset.disjoint_left.mp (hinv.disj c hc) hxc
      refine ⟨x, ?_, hnot, Finset.mem_union_left _ (Finset.mem_union_left _ hxNM)⟩
      exact hU0 (hNM hxNM)
    · have : ¬ NS ⊆ safe_ := fun hsubs => hch (Finset.union_eq_right.mpr hsubs)
      obtain ⟨x, hxNS, _⟩ := Finset.not_subset.mp this
      have hxU : x ∈ unionEqs w h (fun c => eqs c \ NM) := hNS hxNS
      rw [unionEqs, Finset.mem_biUnion] at hxU
      obtain ⟨c, hc, hxc⟩ := hxU
      have hxc2 : x ∈ eqs c := Finset.sdiff_subset hxc
      have hnot : x ∉ mines_ ∪ safe_ :=
        Finset.disjoint_left.mp (hinv.disj c hc) hxc2
      refine ⟨x, ?_, hnot, Finset.mem_union_right _ (Finset.mem_union_left _ hxNS)⟩
      exact hU0 (Finset.mem_biUnion.mpr ⟨c, hc, hxc2⟩)
  obtain ⟨x, hxU, hxold, hxnew⟩ := hx
  refine Finset.card_lt_card ?_
  rw [Finset.ssubset_iff_of_subset hmono]
  refine ⟨x, Finset.mem_sdiff.mpr ⟨hxU, hxold⟩, ?_⟩
  rw [Finset.mem_sdiff]
  intro hcontra
  exact hcontra.2 hxnew

lemma fsmLoop_converges {w h : Nat} (eqs0 : Coord → Finset Coord) :
    ∀ (fuel : Nat) (eqs : Coord → Finset Coord) (vals : Coord → Option Int)
      (mines_ safe_ : Finset Coord),
      FsmTermInv w h eqs0 eqs mines_ safe_ →
      (unionEqs w h eqs0 \ (mines_ ∪ safe_)).card < fuel →
      (fsmLoop w h fuel eqs vals mines_ safe_).2.2 = true ∧
      (fsmLoop w h fuel eqs vals mines_ safe_).1 ∪
        (fsmLoop w h fuel eqs vals mines_ safe_).2.1 ⊆
          unionEqs w h eqs0 ∪ (mines_ ∪ safe_) := by
  intro fuel
  induction fuel with
  | zero =>
    intro eqs vals mines_ safe_ hinv hf
    omega
  | succ f ih =>
    intro eqs vals mines_ safe_ hinv hf
    have hNM : newMinesOf w h eqs vals ⊆ unionEqs w h eqs :=
      newMinesOf_subset w h eqs vals
    have hNS := newSafeOf_subset w h
      (fun c => eqs c \ newMinesOf w h eqs vals)
      (fun c =>
        match vals c with
        | some v => some (v - ((eqs c ∩ newMinesOf w h eqs vals).card : Int))
        | none => none)
    have hstep := fsmTermInv_step hinv hNM hNS
    simp only [fsmLoop]
    by_cases hc : (find_mine w h eqs vals mines_).2.2 = mines_ ∧
        (find_safe w h (find_mine w h eqs vals mines_).1
          (find_mine w h eqs vals mines_).2.1 safe_).2.2 = safe_
    · rw [if_pos hc]
      refine ⟨rfl, ?_⟩
      rw [hc.1, hc.2]
      exact Finset.subset_union_right
    · rw [if_neg hc]
      have hdec := fsmTermInv_decrease hinv hNM hNS hc
      have hdec2 : (unionEqs w h eqs0 \
          ((find_mine w h eqs vals mines_).2.2 ∪
            (find_safe w h (find_mine w h eqs vals mines_).1
              (find_mine w h eqs vals mines_).2.1 safe_).2.2)).card <
          (unionEqs w h eqs0 \ (mines_ ∪ safe_)).card := hdec
      obtain ⟨hconv, hsub⟩ := ih
        (find_safe w h (find_mine w h eqs vals mines_).1
          (find_mine w h eqs vals mines_).2.1 safe_).1
        (find_safe w h (find_mine w h eqs vals mines_).1
          (find_mine w h eqs vals mines_).2.1 safe_).2.1
        (find_mine w h eqs vals mines_).2.2
        (find_safe w h (find_mine w h eqs vals mines_).1
          (find_mine w h eqs vals mines_).2.1 safe_).2.2
        hstep (by omega)
      refine ⟨hconv, hsub.trans ?_⟩
      refine Finset.union_subset Finset.subset_union_left ?_
      exact hstep.acc.trans Finset.subset_union_left

/-- C9 counterexample: on the 1x1 equation system above (a well-formed
system over board cells), the loop has NOT reached a pass with no change
within `width*height = 1` passes — the first pass still grows the mine
set, and only the second pass observes the fixpoint. -/
theorem c9_counterexample :
    (∀ c ∈ gridCells 1 1, eqs1x1 c ⊆ gridCells 1 1) ∧
    (fsmLoop 1 1 (1 * 1) eqs1x1 vals1x1 ∅ ∅).2.2 = false ∧
    (fsmLoop 1 1 (1 * 1 + 1) eqs1x1 vals1x1 ∅ ∅).2.2 = true := by
  refine ⟨by decide, by decide, by decide⟩

/-- C9 (amended): in `find_safe_and_mine`, the accumulated mine and safe
sets grow monotonically from one pass to the next and stay inside the
board (so are bounded by the total cell count); for every input equation
system over board cells the loop reaches its no-change pass within at most
`width*height + 1` passes — at most `width*height` passes can change the
accumulated sets and the next pass at the latest observes no change.
(`fsmLoop w h (w*h+1) ...` is exactly the loop limited to `w*h + 1`
passes, and `find_safe_and_mine` is its projection.) -/
theorem c9_amended (w h : Nat) (eqs : Coord → Finset Coord) (vals : Coord → Option Int)
    (hwf : ∀ c ∈ gridCells w h, eqs c ⊆ gridCells w h) :
    (∀ (eqs2 : Coord → Finset Coord) (vals2 : Coord → Option Int) (m s : Finset Coord),
      m ⊆ (find_mine w h eqs2 vals2 m).2.2 ∧ s ⊆ (find_safe w h eqs2 vals2 s).2.2) ∧
    (fsmLoop w h (w * h + 1) eqs vals ∅ ∅).2.2 = true ∧
    (fsmLoop w h (w * h + 1) eqs vals ∅ ∅).1 ⊆ gridCells w h ∧
    (fsmLoop w h (w * h + 1) eqs vals ∅ ∅).2.1 ⊆ gridCells w h ∧
    find_safe_and_mine w h eqs vals =
      ((fsmLoop w h (w * h + 1) eqs vals ∅ ∅).1,
       (fsmLoop w h (w * h + 1) eqs vals ∅ ∅).2.1) := by
  have hinv0 : FsmTermInv w h eqs eqs ∅ ∅ := by
    refine { sub := fun c _ => Finset.Subset.refl _, disj := ?_, acc := ?_ }
    · intro c _
      rw [Finset.union_empty]
      exact Finset.disjoint_empty_right _
    · rw [Finset.union_empty]
      exact Finset.empty_subset _
  have hUgrid : unionEqs w h eqs ⊆ gridCells w h := Finset.biUnion_subset.mpr hwf
  have hUcard : (unionEqs w h eqs).card ≤ w * h := by
    calc (unionEqs w h eqs).card ≤ (gridCells w h).card := Finset.card_le_card hUgrid
      _ = w * h := gridCells_card w h
  have hfuel : (unionEqs w h eqs \ (∅ ∪ ∅)).card < w * h + 1 := by
    rw [Finset.union_empty, Finset.sdiff_empty]
    omega
  obtain ⟨hconv, hsub⟩ := fsmLoop_converges eqs (w * h + 1) eqs vals ∅ ∅ hinv0 hfuel
  rw [Finset.union_empty, Finset.union_empty] at hsub
  have hsub2 := hsub.trans hUgrid
  rw [Finset.union_subset_iff] at hsub2
  refine ⟨?_, hconv, hsub2.1, hsub2.2, rfl⟩
  intro eqs2 vals2 m s
  exact ⟨Finset.subset_union_right, Finset.subset_union_right⟩

/-- Witness for C9 (amended) at a concrete input: the 1x1 system above. -/
theorem c9_amended_witness :
    (fsmLoop 1 1 (1 * 1 + 1) eqs1x1 vals1x1 ∅ ∅).2.2 = true ∧
    (fsmLoop 1 1 (1 * 1 + 1) eqs1x1 vals1x1 ∅ ∅).1 ⊆ gridCells 1 1 := by
  have h := c9_amended 1 1 eqs1x1 vals1x1 (by decide)
  exact ⟨h.2.1, h.2.2.1⟩

lemma mineCountIn_eq_card_all_mines {M : Coord → Bool} {s : Finset Coord}
    (h : mineCountIn M s = s.card) : ∀ x ∈ s, M x = true := by
  unfold mineCountIn at h
  have hsub : s.filter (fun c => M c = true) ⊆ s := Finset.filter_subset _ _
  have heq : s.filter (fun c => M c = true) = s :=
    Finset.eq_of_subset_of_card_le hsub (le_of_eq h.symm)
  intro x hx
  rw [← heq] at hx
  exact (Finset.mem_filter.mp hx).2

lemma mineCountIn_zero_no_mines {M : Coord → Bool} {s : Finset Coord}
    (h : mineCountIn M s = 0) : ∀ x ∈ s, M x = false := by
  unfold mineCountIn at h
  rw [Finset.card_eq_zero] at h
  intro x hx
  by_contra hM
  rw [Bool.not_eq_false] at hM
  have : x ∈ s.filter (fun c => M c = true) := Finset.mem_filter.mpr ⟨hx, hM⟩
  rw [h] at this
  exact absurd this (Finset.not_mem_empty x)

lemma mineCountIn_sdiff_mines {M : Coord → Bool} {s NM : Finset Coord}
    (hNM : ∀ x ∈ NM, M x = true) :
    mineCountIn M (s \ NM) + (s ∩ NM).card = mineCountIn M s := by
  unfold mineCountIn
  have h1 : (s \ NM).filter (fun c => M c = true) =
      s.filter (fun c => M c = true) \ NM := by
    ext x
    simp only [Finset.mem_filter, Finset.mem_sdiff]
    tauto
  have h2 : s.filter (fun c => M c = true) ∩ NM = s ∩ NM := by
    ext x
    simp only [Finset.mem_filter, Finset.mem_inter]
    constructor
    · rintro ⟨⟨hxs, _⟩, hxNM⟩
      exact ⟨hxs, hxNM⟩
    · rintro ⟨hxs, hxNM⟩
      exact ⟨⟨hxs, hNM x hxNM⟩, hxNM⟩
  rw [h1, ← h2]
  exact Finset.card_sdiff_add_card_inter _ _

lemma mineCountIn_sdiff_safe {M : Coord → Bool} {s NS : Finset Coord}
    (hNS : ∀ x ∈ NS, M x = false) :
    mineCountIn M (s \ NS) = mineCountIn M s := by
  unfold mineCountIn
  congr 1
  ext x
  simp only [Finset.mem_filter, Finset.mem_sdiff]
  constructor
  · rintro ⟨⟨hxs, _⟩, hM⟩
    exact ⟨hxs, hM⟩
  · rintro ⟨hxs, hM⟩
    refine ⟨⟨hxs, ?_⟩, hM⟩
    intro hxNS
    have := hNS x hxNS
    rw [hM] at this
    exact absurd this (by decide)

lemma newMinesOf_sound {w h : Nat} {M : Coord → Bool} {eqs : Coord → Finset Coord}
    {vals : Coord → Option Int} (hinv : SolvInv w h M eqs vals) :
    ∀ x ∈ newMinesOf w h eqs vals, M x = true := by
  intro x hx
  rw [newMinesOf, Finset.mem_biUnion] at hx
  obtain ⟨c, hc, hxc⟩ := hx
  by_cases hcond :
      (truthy (vals c) && decide (vals c = some ((eqs c).card : Int))) = true
  · rw [if_pos hcond] at hxc
    rw [Bool.and_eq_true, decide_eq_true_eq] at hcond
    obtain ⟨_, hveq⟩ := hcond
    have hval := hinv c hc ((eqs c).card : Int) hveq
    have hcard : mineCountIn M (eqs c) = (eqs c).card := by omega
    exact mineCountIn_eq_card_all_mines hcard x hxc
  · rw [if_neg hcond] at hxc
    exact absurd hxc (Finset.not_mem_empty x)

lemma newSafeOf_sound {w h : Nat} {M : Coord → Bool} {eqs : Coord → Finset Coord}
    {vals : Coord → Option Int} (hinv : SolvInv w h M eqs vals) :
    ∀ x ∈ newSafeOf w h eqs vals, M x = false := by
  intro x hx
  rw [newSafeOf, Finset.mem_biUnion] at hx
  obtain ⟨c, hc, hxc⟩ := hx
  by_cases hcond : vals c = some 0
  · rw [if_pos hcond] at hxc
    have hval := hinv c hc 0 hcond
    have hz : mineCountIn M (eqs c) = 0 := by omega
    exact mineCountIn_zero_no_mines hz x hxc
  · rw [if_neg hcond] at hxc
    exact absurd hxc (Finset.not_mem_empty x)

lemma find_mine_solvInv {w h : Nat} {M : Coord → Bool} {eqs : Coord → Finset Coord}
    {vals : Coord → Option Int} (prev : Finset Coord)
    (hinv : SolvInv w h M eqs vals) :
    SolvInv w h M (find_mine w h eqs vals prev).1 (find_mine w h eqs vals prev).2.1 := by
  intro c hc v hval
  cases hvc : vals c with
  | none =>
    have hnone : (find_mine w h eqs vals prev).2.1 c = none := by
      show (match vals c with
        | some v => some (v - ((eqs c ∩ newMinesOf w h eqs vals).card : Int))
        | none => none) = none
      rw [hvc]
    rw [hnone] at hval
    exact absurd hval (by simp)
  | some v0 =>
    have heq : (find_mine w h eqs vals prev).2.1 c =
        some (v0 - ((eqs c ∩ newMinesOf w h eqs vals).card : Int)) := by
      show (match vals c with
        | some v => some (v - ((eqs c ∩ newMinesOf w h eqs vals).card : Int))
        | none => none) = _
      rw [hvc]
    rw [heq] at hval
    injection hval with hval
    have hv0 := hinv c hc v0 hvc
    have hNM := newMinesOf_sound hinv
    have hsd : mineCountIn M (eqs c \ newMinesOf w h eqs vals) +
        (eqs c ∩ newMinesOf w h eqs vals).card = mineCountIn M (eqs c) :=
      mineCountIn_sdiff_mines hNM
    show v = (mineCountIn M (eqs c \ newMinesOf w h eqs vals) : Int)
    omega

lemma find_safe_solvInv {w h : Nat} {M : Coord → Bool} {eqs : Coord → Finset Coord}
    {vals : Coord → Option Int} (prev : Finset Coord)
    (hinv : SolvInv w h M eqs vals) :
    SolvInv w h M (find_safe w h eqs vals prev).1 (find_safe w h eqs vals prev).2.1 := by
  intro c hc v hval
  have hv := hinv c hc v hval
  have hNS := newSafeOf_sound hinv
  have hsd : mineCountIn M (eqs c \ newSafeOf w h eqs vals) = mineCountIn M (eqs c) :=
    mineCountIn_sdiff_safe hNS
  show v = (mineCountIn M (eqs c \ newSafeOf w h eqs vals) : Int)
  omega

lemma fsmLoop_sound {w h : Nat} {M : Coord → Bool} :
    ∀ (fuel : Nat) (eqs : Coord → Finset Coord) (vals : Coord → Option Int)
      (mines_ safe_ : Finset Coord),
      SolvInv w h M eqs vals →
      (∀ x ∈ mines_, M x = true) → (∀ x ∈ safe_, M x = false) →
      (∀ x ∈ (fsmLoop w h fuel eqs vals mines_ safe_).1, M x = true) ∧
      (∀ x ∈ (fsmLoop w h fuel eqs vals mines_ safe_).2.1, M x = false) := by
  intro fuel
  induction fuel with
  | zero =>
    intro eqs vals mines_ safe_ _ hm hs
    exact ⟨hm, hs⟩
  | succ f ih =>
    intro eqs vals mines_ safe_ hinv hm hs
    have hNMs := newMinesOf_sound hinv
    have hminv := find_mine_solvInv mines_ hinv
    have hNSs := newSafeOf_sound hminv
    have hsinv := find_safe_solvInv safe_ hminv
    have hm2 : ∀ x ∈ (find_mine w h eqs vals mines_).2.2, M x = true := by
      intro x hx
      have hx2 : x ∈ newMinesOf w h eqs vals ∪ mines_ := hx
      rcases Finset.mem_union.mp hx2 with hx2 | hx2
      · exact hNMs x hx2
      · exact hm x hx2
    have hs2 : ∀ x ∈ (find_safe w h (find_mine w h eqs vals mines_).1
        (find_mine w h eqs vals mines_).2.1 safe_).2.2, M x = false := by
      intro x hx
      have hx2 : x ∈ newSafeOf w h (find_mine w h eqs vals mines_).1
          (find_mine w h eqs vals mines_).2.1 ∪ safe_ := hx
      rcases Finset.mem_union.mp hx2 with hx2 | hx2
      · exact hNSs x hx2
      · exact hs x hx2
    simp only [fsmLoop]
    by_cases hcond : (find_mine w h eqs vals mines_).2.2 = mines_ ∧
        (find_safe w h (find_mine w h eqs vals mines_).1
          (find_mine w h eqs vals mines_).2.1 safe_).2.2 = safe_
    · rw [if_pos hcond]
      exact ⟨hm2, hs2⟩
    · rw [if_neg hcond]
      exact ih _ _ _ _ hsinv hm2 hs2

lemma game_solvInv (g : Game)
    (hcounts : ∀ c : Coord, g.counts c = trueNeighborMineCount g.width g.height g.mines c)
    (hnomine : ∀ c : Coord, g.exposed c = true → g.mines c = false) :
    SolvInv g.width g.height g.mines
      (calc_equations g.width g.height g.exposedSet g.state) g.state := by
  intro c hc v hval
  have hvparts : inBoard g.width g.height c = true ∧ g.exposed c = true ∧
      v = (g.counts c : Int) := by
    unfold Game.state at hval
    by_cases hb : (inBoard g.width g.height c && g.exposed c) = true
    · rw [if_pos hb] at hval
      injection hval with hval
      rw [Bool.and_eq_true] at hb
      exact ⟨hb.1, hb.2, hval.symm⟩
    · rw [if_neg hb] at hval
      exact absurd hval (by simp)
  obtain ⟨hcb, hcexp, hv⟩ := hvparts
  have hceq : c ∈ g.exposedSet := Finset.mem_filter.mpr ⟨inBoard_iff_mem.mp hcb, hcexp⟩
  have heqs : calc_equations g.width g.height g.exposedSet g.state c =
      ((neighborsOf c).filter
        (fun n => inBoard g.width g.height n && (g.state n).isNone)).toFinset := by
    unfold calc_equations
    rw [if_pos hceq]
  rw [heqs, hv]
  have hgoal : g.counts c = mineCountIn g.mines
      ((neighborsOf c).filter
        (fun n => inBoard g.width g.height n && (g.state n).isNone)).toFinset := by
    rw [hcounts c]
    unfold trueNeighborMineCount mineCountIn
    congr 1
    ext n
    simp only [Finset.mem_filter, List.mem_toFinset, List.mem_filter,
      mem_neighborsOf_iff, Bool.and_eq_true]
    constructor
    · rintro ⟨hng, hadj, hM⟩
      refine ⟨⟨hadj, inBoard_iff_mem.mpr hng, ?_⟩, hM⟩
      unfold Game.state
      by_cases hexp : g.exposed n = true
      · have := hnomine n hexp
        rw [hM] at this
        exact absurd this (by decide)
      · rw [Bool.not_eq_true] at hexp
        rw [hexp, Bool.and_false]
        rfl
    · rintro ⟨⟨hadj, hnb, _⟩, hM⟩
      exact ⟨inBoard_iff_mem.mp hnb, hadj, hM⟩
  omega

/-- C1 counterexample: a reachable game whose solver tracking equals the
true exposure state of the board, on which `find_safe_and_mine` reports a
non-mine coordinate in its mine set — so the claim, which quantifies over
every such game, is false.  (A mine is exposed here; the Runner never
invokes the solver on such a state, which is what the amended claim
captures.) -/
theorem c1_counterexample :
    game3x1d.exposedSet = {((0 : Int), (0 : Int)), ((1 : Int), (0 : Int))} ∧
    game3x1d.explosion = true ∧
    (find_safe_and_mine 3 1
      (calc_equations 3 1 game3x1d.exposedSet game3x1d.state) game3x1d.state).1 =
      {((2 : Int), (0 : Int))} ∧
    game3x1d.mines (2, 0) = false := by
  refine ⟨by decide, by decide, by decide, by decide⟩

/-- C1 (amended): for every reachable game in which no mine has exploded
(the only states on which the program invokes the solver) and whose solver
tracking equals the true exposure state of the board, every coordinate of the
mine set returned by `find_safe_and_mine` carries a mine in the
ground-truth layout, and every coordinate of the returned safe set does
not. -/
theorem c1_amended (cfg : GameConfig) (M : Coord → Bool) (g : Game)
    (hR : Reachable (Game.init cfg M) g) (hexp : g.explosion = false)
    (T : Finset Coord) (hT : T = g.exposedSet) :
    (∀ x ∈ (find_safe_and_mine g.width g.height
      (calc_equations g.width g.height T g.state) g.state).1, g.mines x = true) ∧
    (∀ x ∈ (find_safe_and_mine g.width g.height
      (calc_equations g.width g.height T g.state) g.state).2.1, g.mines x = false) := by
  subst hT
  have hI := init_reachable_inv hR
  have hsolv := game_solvInv g hI.countsOK (hI.mineSafe hexp)
  unfold find_safe_and_mine
  exact fsmLoop_sound (g.width * g.height + 1)
    (calc_equations g.width g.height g.exposedSet g.state) g.state ∅ ∅ hsolv
    (fun x hx => absurd hx (Finset.not_mem_empty x))
    (fun x hx => absurd hx (Finset.not_mem_empty x))

/-- Witness for C1 (amended) at a concrete input: after the opening move
on the 2x1 board, the solver deduces exactly the mine `(1, 0)`, and the
theorem confirms every reported mine is a true mine. -/
theorem c1_amended_witness :
    game2x1s.explosion = false ∧
    (find_safe_and_mine game2x1s.width game2x1s.height
      (calc_equations game2x1s.width game2x1s.height game2x1s.exposedSet game2x1s.state)
      game2x1s.state).1 = {((1 : Int), (0 : Int))} ∧
    (∀ x ∈ (find_safe_and_mine game2x1s.width game2x1s.height
      (calc_equations game2x1s.width game2x1s.height game2x1s.exposedSet game2x1s.state)
      game2x1s.state).1, game2x1s.mines x = true) := by
  have h := c1_amended { width := 2, height := 1, num_mines := 1 } mines2x1 game2x1s
    (Reachable.step (Op.selectOp (0, 0)) Reachable.refl) (by decide)
    game2x1s.exposedSet rfl
  exact ⟨by decide, by decide, h.1⟩
